import Mathlib

/-!
Shallow embedding of the graphql-codegen-hasura-operations plugin
(src/index.ts): the GraphQL schema model, the recursive output-field
printer, operation assembly, the fragment registry, and the plugin and
validate entry points, together with proofs about them.

Machine strings are Lean `String`s; JS `undefined`-able values are
`Option`s; thrown JS errors are `Except.error`.  The external casing
collaborators `snake` and `camel` (from radash) are abstract function
parameters.  A brace character inside a string literal is written with
its hexadecimal escape.
-/

/-- GraphQL type reference: named scalar/enum, object, union and
interface types, plus list and non-null wrappers. -/
inductive TypeRef where
  | scalar (name : String)
  | object (name : String)
  | union (name : String)
  | iface (name : String)
  | list (t : TypeRef)
  | nonNull (t : TypeRef)
deriving DecidableEq

/-- A field argument descriptor (name and possibly wrapped type). -/
structure GQLArgument where
  name : String
  type : TypeRef
deriving DecidableEq

/-- A field descriptor: name, return type, own arguments. -/
structure GQLField where
  name : String
  type : TypeRef
  args : List GQLArgument
deriving DecidableEq

/-- The schema type graph: object/union/interface definitions are looked
up by name (the graph may be cyclic at the type-name level), and the
three root types expose their field mappings. -/
structure GQLSchema where
  objects : List (String × List GQLField)
  unions : List (String × List String)
  ifaces : List (String × List GQLField)
  queryFields : List GQLField
  mutationFields : List GQLField
  subscriptionFields : List GQLField
deriving DecidableEq

/-- `PrintGraphQLOutput` of the source: selection text, collected
variable arguments, scalar-leaf flag. -/
structure PrintGraphQLOutput where
  query : String
  args : List GQLArgument
  isScalar : Bool
deriving DecidableEq

/-- One entry of the `FragmentMap`. -/
structure FragmentEntry where
  name : String
  content : String
  args : List GQLArgument
deriving DecidableEq

/-- graphql-js `getNamedType(t).name`: the underlying named type of a
possibly wrapped type. -/
def TypeRef.namedName : TypeRef → String
  | .scalar n => n
  | .object n => n
  | .union n => n
  | .iface n => n
  | .list t => t.namedName
  | .nonNull t => t.namedName

/-- graphql-js `isNonNullType`. -/
def TypeRef.isNonNullTy : TypeRef → Bool
  | .nonNull _ => true
  | _ => false

/-- graphql-js `type.toString()`, used when printing variable
declarations. -/
def TypeRef.toStr : TypeRef → String
  | .scalar n => n
  | .object n => n
  | .union n => n
  | .iface n => n
  | .list t => "[" ++ t.toStr ++ "]"
  | .nonNull t => t.toStr ++ "!"

/-- JS property read `(type as GraphQLObjectType).name`: named types
expose `.name`; list and non-null wrappers do not, so the read yields
`undefined` (modelled as `none`).  The printer's cycle guard compares
these reads with `===`. -/
def typeNameOf : TypeRef → Option String
  | .scalar n => some n
  | .object n => some n
  | .union n => some n
  | .iface n => some n
  | .list _ => none
  | .nonNull _ => none

/-- `getFields()` of an object type, looked up by type name (a dangling
name yields no fields). -/
def GQLSchema.objectFields (s : GQLSchema) (n : String) : List GQLField :=
  match s.objects.lookup n with
  | some fs => fs
  | none => []

/-- `getTypes()` of a union type: its member object type names, in
declared order. -/
def GQLSchema.unionMembers (s : GQLSchema) (n : String) : List String :=
  match s.unions.lookup n with
  | some ms => ms
  | none => []

/-- `getFields()` of an interface type. -/
def GQLSchema.ifaceFields (s : GQLSchema) (n : String) : List GQLField :=
  match s.ifaces.lookup n with
  | some fs => fs
  | none => []

/-- Root-type field lookup `getFields()[name]`: fields are keyed by
their own name. -/
def findField (fields : List GQLField) (n : String) : Option GQLField :=
  fields.find? (fun f => f.name == n)

/-- Split a character list at every occurrence of `sep` (the behaviour
of JS `String.prototype.split` with a one-character separator, at the
character level). -/
def splitCh (sep : Char) : List Char → List (List Char)
  | [] => [[]]
  | c :: rest =>
    if c = sep then [] :: splitCh sep rest
    else
      match splitCh sep rest with
      | [] => [[c]]
      | l :: ls => (c :: l) :: ls

/-- `getIndentSpaces`: two spaces per level. -/
def getIndentSpaces (level : Nat) : String :=
  String.join (List.replicate level "  ")

/-- `printIndent`: split the input on newlines, prepend the indent
spaces to every line, and re-join with newlines; level 0 is the
identity. -/
def printIndent (input : String) (level : Nat) : String :=
  if level = 0 then input
  else
    String.intercalate "\n"
      ((splitCh '\n' input.data).map (fun l => getIndentSpaces level ++ String.mk l))

/-- JS `String.prototype.trim`: drop leading and trailing whitespace
(modelled at the character level). -/
def trimChars (cs : List Char) : List Char :=
  ((cs.dropWhile Char.isWhitespace).reverse.dropWhile Char.isWhitespace).reverse

/-- String form of `trimChars`. -/
def strTrim (s : String) : String :=
  String.mk (trimChars s.data)

/-- Helper for `capitalCase`: drop the remainder of a whitespace run. -/
def dropWhitespaceRun : List Char → List Char
  | [] => []
  | c :: rest => if c.isWhitespace then dropWhitespaceRun rest else c :: rest

/-- Helper for `capitalCase`: the source's `replace(spacePattern, " ")`
uses a regex without the global flag, so only the first whitespace run
is collapsed to a single space. -/
def replaceFirstWsRun : List Char → List Char
  | [] => []
  | c :: rest =>
    if c.isWhitespace then ' ' :: dropWhitespaceRun rest
    else c :: replaceFirstWsRun rest

/-- `capitalCase`: replace each non-alphanumeric character with a space,
trim, collapse the first whitespace run, split on single spaces, and
concatenate the tokens with their first character upper-cased. -/
def capitalCase (input : String) : String :=
  let s1 := input.data.map (fun c => if c.isAlphanum then c else ' ')
  let s2 := replaceFirstWsRun (trimChars s1)
  (splitCh ' ' s2).foldl (fun acc l => acc ++ (String.mk l).capitalize) ""

/-- `buildArgVariableName` of `printOperationContent`: at the operation
root the variable is the argument's own name; on a sub-field every
ancestor field name, the field's own name and the argument name are
joined with underscores. -/
def buildArgVariableName (isSubfield : Bool) (parents : List GQLField)
    (field : GQLField) (v : GQLArgument) : String :=
  if !isSubfield then v.name
  else String.intercalate "_" (parents.map (fun p => p.name) ++ [field.name]) ++ "_" ++ v.name

/-- The `requiredArgs` filter of `printOperationContent`: a non-nullable
argument whose underlying named type is in the disabled list throws; a
non-nullable argument is otherwise kept; a nullable argument is kept
when its type is not disabled and (for sub-fields) sub-field arguments
are enabled. -/
def filterRequiredArgs (disabledArgs : List String) (isSubfield enableSubfieldArgs : Bool) :
    List GQLArgument → Except String (List GQLArgument)
  | [] => .ok []
  | arg :: rest =>
    let typeName := arg.type.namedName
    if arg.type.isNonNullTy then
      if disabledArgs.contains typeName then
        .error ("The argument " ++ typeName ++ " is required but in the disabled args list")
      else do
        let tail ← filterRequiredArgs disabledArgs isSubfield enableSubfieldArgs rest
        .ok (arg :: tail)
    else
      if !disabledArgs.contains typeName && (!isSubfield || enableSubfieldArgs) then do
        let tail ← filterRequiredArgs disabledArgs isSubfield enableSubfieldArgs rest
        .ok (arg :: tail)
      else
        filterRequiredArgs disabledArgs isSubfield enableSubfieldArgs rest

/-- The non-recursive tail of `printOperationContent`: given the printed
body `output` of a field (printed with its arguments cleared), classify
the field's real arguments, build the `name: $variable` list, and
assemble the field text; a field with neither a body nor scalar-leaf
status yields an empty query and no arguments. -/
def printOperationContentCombine (isSubfield : Bool) (parents : List GQLField)
    (enableSubfieldArgs : Bool) (disabledArgs : List String)
    (field : GQLField) (output : PrintGraphQLOutput) : Except String PrintGraphQLOutput := do
  let requiredArgs ← filterRequiredArgs disabledArgs isSubfield enableSubfieldArgs field.args
  let argString := String.intercalate ","
    (requiredArgs.map (fun v => v.name ++ ": $" ++ buildArgVariableName isSubfield parents field v))
  let query :=
    if output.query != "" || output.isScalar then
      field.name ++ (if argString != "" then "(" ++ argString ++ ")" else "") ++ output.query
    else ""
  .ok { query := query
        args :=
          if query != "" then
            requiredArgs.map (fun f =>
              if !isSubfield then f
              else { f with name := buildArgVariableName isSubfield parents field f }) ++ output.args
          else []
        isScalar := false }

/-- Termination measure component: how much deeper the ancestor chain
may still grow. -/
def chainBudget (maxDepth : Int) (parents : List GQLField) : Nat :=
  (maxDepth + 2 - parents.length).toNat

mutual

/-- `printOutputField`: recursively renders one field.  In order: the
cycle/depth guard (same (field name, type name) pair in the ancestor
chain, or chain longer than `maxDepth`); the sub-field-with-arguments
detour through the operation-content step (inlined here, see
`printOperationContent`); then dispatch on the return-type category
(unwrap list/non-null, object with fragment substitution and the
`maxDepth - 1` check, union with `__typename` plus inline fragments,
interface with `__typename` plus direct children, scalar leaf). -/
def printOutputField (s : GQLSchema) (maxDepth : Int)
    (enableSubfieldArgs disableFragments : Bool)
    (fragmentTypes : List (String × FragmentEntry)) (disabledArgs : List String)
    (parents : List GQLField) (field : GQLField) (hideName : Bool) :
    Except String PrintGraphQLOutput :=
  if hg : (parents.any (fun p =>
        p.name == field.name && typeNameOf p.type == typeNameOf field.type)) = true
      ∨ (parents.length : Int) > maxDepth then
    .ok { query := "", args := [], isScalar := false }
  else if hs : parents ≠ [] ∧ field.args ≠ [] then
    do
      let output ← printOutputField s maxDepth enableSubfieldArgs disableFragments fragmentTypes
        disabledArgs parents { field with args := [] } true
      printOperationContentCombine true parents enableSubfieldArgs disabledArgs field output
  else
    match ht : field.type with
    | .list t =>
      printOutputField s maxDepth enableSubfieldArgs disableFragments fragmentTypes disabledArgs
        parents { field with type := t } hideName
    | .nonNull t =>
      printOutputField s maxDepth enableSubfieldArgs disableFragments fragmentTypes disabledArgs
        parents { field with type := t } hideName
    | .object n =>
      if hd : (parents.length : Int) > maxDepth - 1 then
        .ok { query := "", args := [], isScalar := false }
      else
        match fragmentTypes.lookup n with
        | some fragment =>
          .ok { query := (if !hideName then field.name else "") ++ " \x7b\n  ..."
                  ++ fragment.name ++ "  \n\x7d"
                args := fragment.args
                isScalar := false }
        | none =>
          do
            let outs ← printOutputFieldList s maxDepth enableSubfieldArgs disableFragments
              fragmentTypes disabledArgs false parents field (s.objectFields n)
              (by omega)
            let innerQuery := String.intercalate "\n"
              ((outs.map (fun o => o.query)).filter (fun q => strTrim q != ""))
            .ok { query :=
                    if innerQuery != "" then
                      (if !hideName then field.name else "")
                        ++ " \x7b\n" ++ printIndent innerQuery 1 ++ "\n\x7d"
                    else ""
                  args := (outs.map (fun o => o.args)).flatten
                  isScalar := false }
    | .union n =>
      do
        let outs ← printOutputFieldList s maxDepth enableSubfieldArgs disableFragments
          fragmentTypes disabledArgs false parents field
          ((s.unionMembers n).map (fun m => { name := m, type := TypeRef.object m, args := [] }))
          (not_lt.mp (fun hx => hg (Or.inr hx)))
        .ok { query := "\x7b\n" ++ String.intercalate "\n"
                ("  __typename" :: outs.map (fun o => "  ... on " ++ o.query)) ++ "\n\x7d"
              args := (outs.map (fun o => o.args)).flatten
              isScalar := false }
    | .iface n =>
      do
        let outs ← printOutputFieldList s maxDepth enableSubfieldArgs disableFragments
          fragmentTypes disabledArgs true parents field (s.ifaceFields n)
          (not_lt.mp (fun hx => hg (Or.inr hx)))
        .ok { query := "\x7b\n  __typename\n" ++ String.intercalate "\n"
                (outs.map (fun o => printIndent o.query 1)) ++ "\n\x7d"
              args := (outs.map (fun o => o.args)).flatten
              isScalar := false }
    | .scalar _ =>
      .ok { query := if !hideName then field.name else "", args := [], isScalar := true }
termination_by (chainBudget maxDepth parents, field.args.length, sizeOf field.type, 1)
decreasing_by
  all_goals
    first
    | (apply Prod.Lex.right
       apply Prod.Lex.left
       simpa using List.length_pos.mpr hs.2)
    | (apply Prod.Lex.right
       apply Prod.Lex.right
       apply Prod.Lex.left
       rw [ht]
       simp
       try omega
       done)
    | (apply Prod.Lex.right
       rcases Nat.eq_zero_or_pos field.args.length with h0 | h0
       · rw [h0]
         apply Prod.Lex.right
         apply Prod.Lex.left
         rw [ht]
         simp
         try omega
         done
       · exact Prod.Lex.left _ _ h0)

/-- Renders a list of child fields in order (first error wins).  For
object children and union members the ancestor chain is extended with
the containing `anchor` field; for interface children
(`extendWithChild = true`) it is extended with the child itself, as in
the source. -/
def printOutputFieldList (s : GQLSchema) (maxDepth : Int)
    (enableSubfieldArgs disableFragments : Bool)
    (fragmentTypes : List (String × FragmentEntry)) (disabledArgs : List String)
    (extendWithChild : Bool) (parents : List GQLField) (anchor : GQLField)
    (fields : List GQLField) (hp : (parents.length : Int) ≤ maxDepth) :
    Except String (List PrintGraphQLOutput) :=
  match fields with
  | [] => .ok []
  | f :: rest =>
    do
      let out ← printOutputField s maxDepth enableSubfieldArgs disableFragments fragmentTypes
        disabledArgs (parents ++ [if extendWithChild then f else anchor]) f false
      let outs ← printOutputFieldList s maxDepth enableSubfieldArgs disableFragments fragmentTypes
        disabledArgs extendWithChild parents anchor rest hp
      .ok (out :: outs)
termination_by (chainBudget maxDepth parents, 0, 0, fields.length)
decreasing_by
  all_goals
    first
    | (apply Prod.Lex.left
       simp [chainBudget]
       omega)
    | (apply Prod.Lex.right
       apply Prod.Lex.right
       apply Prod.Lex.right
       simp
       try omega
       done)

end

/-- `printOperationContent`: print the field's body with its own
arguments cleared and the name hidden, then classify the real arguments
and assemble the field text (see `printOperationContentCombine`). -/
def printOperationContent (s : GQLSchema) (maxDepth : Int)
    (enableSubfieldArgs disableFragments : Bool)
    (fragmentTypes : List (String × FragmentEntry)) (disabledArgs : List String)
    (isSubfield : Bool) (parents : List GQLField) (field : GQLField) :
    Except String PrintGraphQLOutput := do
  let output ← printOutputField s maxDepth enableSubfieldArgs disableFragments fragmentTypes
    disabledArgs parents { field with args := [] } true
  printOperationContentCombine isSubfield parents enableSubfieldArgs disabledArgs field output

/-- `printOperationArgs`: the parenthesised variable-declaration
header. -/
def printOperationArgs (args : List GQLArgument) : String :=
  if args.isEmpty then ""
  else "(" ++ String.intercalate ", "
    (args.map (fun v => "$" ++ v.name ++ ": " ++ v.type.toStr)) ++ ")"

/-- `printOperation`: prints one full operation document for a root
field. -/
def printOperation (s : GQLSchema) (maxDepth : Int)
    (enableSubfieldArgs disableFragments : Bool)
    (fragmentTypes : List (String × FragmentEntry)) (disabledArgs : List String)
    (operationType : String) (namePfx : Option String) (field : GQLField) :
    Except String String := do
  let op ← printOperationContent s maxDepth enableSubfieldArgs disableFragments fragmentTypes
    disabledArgs false [] field
  let args := printOperationArgs op.args
  .ok (operationType ++ " " ++ (namePfx.getD "") ++ capitalCase field.name ++ args
    ++ " \x7b\n" ++ printIndent op.query 1 ++ "\n\x7d")

/-- JS `a || b` on field lookups (a found field object is always
truthy). -/
def jsOr (a b : Option GQLField) : Option GQLField :=
  match a with
  | some x => some x
  | none => b

/-- The conventionally derived field-name family for one model, in both
snake_case and camelCase spellings (computed at the top of the
`tables.flatMap` body of `printCrudOperations`). -/
structure TableNames where
  fieldName : String
  fieldByPkName : String
  aggregateFieldName : String
  insertFieldName : String
  insertOneFieldName : String
  updateFieldName : String
  updateByPkFieldName : String
  updateManyFieldName : String
  deleteFieldName : String
  deleteByPkFieldName : String
  streamFieldName : String
  fieldNameCamelCase : String
  fieldByPkNameCamelCase : String
  aggregateFieldNameCamelCase : String
  insertFieldNameCamelCase : String
  insertOneFieldNameCamelCase : String
  updateFieldNameCamelCase : String
  updateByPkFieldNameCamelCase : String
  updateManyFieldNameCamelCase : String
  deleteFieldNameCamelCase : String
  deleteByPkFieldNameCamelCase : String
  streamFieldNameCamelCase : String
deriving DecidableEq

/-- The name-derivation block of `printCrudOperations`, parameterised by
the external `snake` and `camel` casing collaborators. -/
def deriveTableNames (snake camel : String → String) (table : String) : TableNames :=
  let fieldName := snake table
  { fieldName := fieldName
    fieldByPkName := snake (fieldName ++ "_by_pk")
    aggregateFieldName := fieldName ++ "_aggregate"
    insertFieldName := "insert_" ++ fieldName
    insertOneFieldName := "insert_" ++ fieldName ++ "_one"
    updateFieldName := "update_" ++ fieldName
    updateByPkFieldName := "update_" ++ fieldName ++ "_by_pk"
    updateManyFieldName := "update_" ++ fieldName ++ "_many"
    deleteFieldName := "delete_" ++ fieldName
    deleteByPkFieldName := "delete_" ++ fieldName ++ "_by_pk"
    streamFieldName := fieldName ++ "_stream"
    fieldNameCamelCase := camel table
    fieldByPkNameCamelCase := camel (snake (fieldName ++ "_by_pk"))
    aggregateFieldNameCamelCase := camel (fieldName ++ "_aggregate")
    insertFieldNameCamelCase := camel ("insert_" ++ fieldName)
    insertOneFieldNameCamelCase := camel ("insert_" ++ fieldName ++ "_one")
    updateFieldNameCamelCase := camel ("update_" ++ fieldName)
    updateByPkFieldNameCamelCase := camel ("update_" ++ fieldName ++ "_by_pk")
    updateManyFieldNameCamelCase := camel ("update_" ++ fieldName ++ "_many")
    deleteFieldNameCamelCase := camel ("delete_" ++ fieldName)
    deleteByPkFieldNameCamelCase := camel ("delete_" ++ fieldName ++ "_by_pk")
    streamFieldNameCamelCase := camel (fieldName ++ "_stream") }

/-- `buildModelTypeNameFromSuffixes`: the disabled argument type names
derived from the configured `disableArgSuffixes` for one model. -/
def buildModelTypeNameFromSuffixes (camel : String → String) (modelName : String)
    (suffixes : Option (List String)) : List String :=
  ((suffixes.getD []).map (fun sfx =>
    let argType := modelName ++ "_" ++ sfx
    [argType, camel argType])).flatten

/-- The `!disableOperationTypes?.length || !disableOperationTypes.includes(k)`
guard: a section runs when the disable list is missing or empty, or does
not contain the kind. -/
def opKindEnabled (dot : Option (List String)) (k : String) : Bool :=
  match dot with
  | none => true
  | some l => l.isEmpty || !(l.contains k)

/-- The configuration record received by `printCrudOperations` (the
plugin's config minus `tables`, plus the prebuilt fragment map). -/
structure CrudOptions where
  queryOperationNamePrefix : Option String
  mutationOperationNamePrefix : Option String
  subscriptionOperationNamePrefix : Option String
  disableOperationTypes : Option (List String)
  paginationSuffix : String
  disablePagination : Bool
  maxDepth : Int
  enableSubfieldArgs : Bool
  disableFragments : Bool
  fragmentTypes : List (String × FragmentEntry)
  disableArgSuffixes : Option (List String)

/-- The pagination-query push of the query section: when pagination is
not disabled and both the aggregate field and the plain get field
resolved, emit the combined document with the `aggregate \x7b count \x7d`
block against the `$where` variable. -/
def tablePaginationQueries (s : GQLSchema) (o : CrudOptions)
    (fieldAggregate fieldGet : Option GQLField) (disabledArgs : List String) :
    Except String (List String) :=
  match fieldAggregate, fieldGet with
  | some fa, some fg =>
    if !o.disablePagination then do
      let getContent ← printOperationContent s o.maxDepth o.enableSubfieldArgs
        o.disableFragments o.fragmentTypes disabledArgs false [] fg
      .ok ["query " ++ (o.queryOperationNamePrefix.getD "") ++ capitalCase fg.name
        ++ o.paginationSuffix ++ printOperationArgs getContent.args ++ " \x7b\n"
        ++ printIndent getContent.query 1 ++ "\n  " ++ fa.name
        ++ "(where: $where) \x7b\n    aggregate \x7b\n      count\n    \x7d\n  \x7d\n\x7d"]
    else .ok []
  | _, _ => .ok []

/-- The query section of `printCrudOperations` for one model: pagination
document, then the plain get query, then the by-primary-key query. -/
def tableQuerySection (s : GQLSchema) (o : CrudOptions) (n : TableNames)
    (disabledArgs : List String) : Except String (List String) :=
  if opKindEnabled o.disableOperationTypes "query" then do
    let fieldGet := jsOr (findField s.queryFields n.fieldName)
      (findField s.queryFields n.fieldNameCamelCase)
    let fieldGetByPk := jsOr (findField s.queryFields n.fieldByPkName)
      (findField s.queryFields n.fieldByPkNameCamelCase)
    let fieldAggregate := jsOr (findField s.queryFields n.aggregateFieldName)
      (findField s.queryFields n.aggregateFieldNameCamelCase)
    let pag ← tablePaginationQueries s o fieldAggregate fieldGet disabledArgs
    let g ← match fieldGet with
      | some fg => do
        let q ← printOperation s o.maxDepth o.enableSubfieldArgs o.disableFragments
          o.fragmentTypes disabledArgs "query" o.queryOperationNamePrefix fg
        Except.ok [q]
      | none => .ok []
    let gp ← match fieldGetByPk with
      | some fb => do
        let q ← printOperation s o.maxDepth o.enableSubfieldArgs o.disableFragments
          o.fragmentTypes disabledArgs "query" o.queryOperationNamePrefix fb
        Except.ok [q]
      | none => .ok []
    .ok (pag ++ g ++ gp)
  else .ok []

/-- The subscription section for one model: the plain get subscription
(note: with an empty disabled-argument list), the by-primary-key
subscription, and the stream subscription. -/
def tableSubscriptionSection (s : GQLSchema) (o : CrudOptions) (n : TableNames)
    (disabledArgs : List String) : Except String (List String) :=
  if opKindEnabled o.disableOperationTypes "subscription" then do
    let fieldGet := jsOr (findField s.subscriptionFields n.fieldName)
      (findField s.subscriptionFields n.fieldNameCamelCase)
    let fieldGetByPk := jsOr (findField s.subscriptionFields n.fieldByPkName)
      (findField s.subscriptionFields n.fieldByPkNameCamelCase)
    let fieldStream := jsOr (findField s.subscriptionFields n.streamFieldName)
      (findField s.subscriptionFields n.streamFieldNameCamelCase)
    let g ← match fieldGet with
      | some f => do
        let q ← printOperation s o.maxDepth o.enableSubfieldArgs o.disableFragments
          o.fragmentTypes [] "subscription" o.subscriptionOperationNamePrefix f
        Except.ok [q]
      | none => .ok []
    let gp ← match fieldGetByPk with
      | some f => do
        let q ← printOperation s o.maxDepth o.enableSubfieldArgs o.disableFragments
          o.fragmentTypes disabledArgs "subscription" o.subscriptionOperationNamePrefix f
        Except.ok [q]
      | none => .ok []
    let st ← match fieldStream with
      | some f => do
        let q ← printOperation s o.maxDepth o.enableSubfieldArgs o.disableFragments
          o.fragmentTypes disabledArgs "subscription" o.subscriptionOperationNamePrefix f
        Except.ok [q]
      | none => .ok []
    .ok (g ++ gp ++ st)
  else .ok []

/-- The bulk-mutation names of one model (`mutationManyNames`):
insert, update, update-many and delete, in both spellings.  A resolved
mutation field with one of these names is printed with one extra unit of
depth budget. -/
def mutationManyNames (n : TableNames) : List String :=
  [n.insertFieldName, n.insertFieldNameCamelCase,
   n.updateFieldName, n.updateFieldNameCamelCase,
   n.updateManyFieldName, n.updateManyFieldNameCamelCase,
   n.deleteFieldName, n.deleteFieldNameCamelCase]

/-- The mutation probe list of one model, in source order. -/
def mutationProbeNames (n : TableNames) : List String :=
  [n.insertFieldName, n.insertFieldNameCamelCase,
   n.insertOneFieldName, n.insertOneFieldNameCamelCase,
   n.updateFieldName, n.updateFieldNameCamelCase,
   n.updateManyFieldName, n.updateManyFieldNameCamelCase,
   n.updateByPkFieldName, n.updateByPkFieldNameCamelCase,
   n.deleteFieldName, n.deleteFieldNameCamelCase,
   n.deleteByPkFieldName, n.deleteByPkFieldNameCamelCase]

/-- The depth budget passed to `printOperation` for a resolved mutation
field: `maxDepth + 1` exactly when the field's name is one of the bulk
mutation names. -/
def mutationPrintDepth (n : TableNames) (maxDepth : Int) (f : GQLField) : Int :=
  if (mutationManyNames n).contains f.name then maxDepth + 1 else maxDepth

/-- The mutation section for one model: probe all fourteen candidate
names, keep the resolved fields, and print each with the depth budget of
`mutationPrintDepth`. -/
def tableMutationSection (s : GQLSchema) (o : CrudOptions) (n : TableNames)
    (disabledArgs : List String) : Except String (List String) :=
  if opKindEnabled o.disableOperationTypes "mutation" then
    (((mutationProbeNames n).map (findField s.mutationFields)).reduceOption).mapM
      (fun f => printOperation s (mutationPrintDepth n o.maxDepth f) o.enableSubfieldArgs
        o.disableFragments o.fragmentTypes disabledArgs "mutation"
        o.mutationOperationNamePrefix f)
  else .ok []

/-- The per-model body of `tables.flatMap` in `printCrudOperations`:
derive the name family and the disabled argument types, collect the
query, subscription and mutation sections, and fail when no operation at
all was produced. -/
def tableOperations (snake camel : String → String) (s : GQLSchema) (o : CrudOptions)
    (table : String) : Except String (List String) := do
  let n := deriveTableNames snake camel table
  let disabledArgs := buildModelTypeNameFromSuffixes camel table o.disableArgSuffixes
  let qs ← tableQuerySection s o n disabledArgs
  let subs ← tableSubscriptionSection s o n disabledArgs
  let muts ← tableMutationSection s o n disabledArgs
  let queries := qs ++ subs ++ muts
  if queries.isEmpty then
    .error ("table " ++ table ++ " doesn't exist, or maybe the role doesn't have any permission")
  else .ok queries

/-- `printCrudOperations`: `tables.flatMap` over the per-model body; a
thrown error aborts the whole run. -/
def printCrudOperations (snake camel : String → String) (tables : List String)
    (s : GQLSchema) (o : CrudOptions) : Except String (List String) :=
  (tables.mapM (tableOperations snake camel s o)).map List.flatten

/-- JS object-spread update `\x7b...acc, [table]: entry\x7d`: an
existing key keeps its position and gets the new value, a new key is
appended. -/
def upsertFragment (acc : List (String × FragmentEntry)) (k : String) (v : FragmentEntry) :
    List (String × FragmentEntry) :=
  if acc.any (fun p => p.1 == k) then
    acc.map (fun p => if p.1 == k then (k, v) else p)
  else acc ++ [(k, v)]

/-- `printFragmentTypes`: for each configured model resolving to an
object type, print the type once (name hidden, empty ancestor chain, no
fragment map) and record the fragment text and its collected
arguments. -/
def printFragmentTypes (camel : String → String) (tables : List String) (s : GQLSchema)
    (maxDepth : Int) (enableSubfieldArgs : Bool) (disableArgSuffixes : Option (List String)) :
    Except String (List (String × FragmentEntry)) :=
  tables.foldlM (fun acc table =>
    match s.objects.lookup table with
    | none => .ok acc
    | some _ => do
      let aliasName := capitalCase table
      let disabledArgs := buildModelTypeNameFromSuffixes camel table disableArgSuffixes
      let output ← printOutputField s maxDepth enableSubfieldArgs false [] disabledArgs []
        { name := aliasName, type := TypeRef.object table, args := [] } true
      .ok (upsertFragment acc table
        { name := aliasName
          content := "fragment " ++ aliasName ++ " on " ++ table ++ " " ++ output.query
          args := output.args })) []

/-- The plugin's TypeScript configuration object: every field is
optional (JS `undefined` is `none`). -/
structure HasuraGraphQLConfig where
  commentDescriptions : Option Bool := none
  tables : Option (List String) := none
  disableOperationTypes : Option (List String) := none
  disableFragments : Option Bool := none
  disablePagination : Option Bool := none
  enableSubfieldArgs : Option Bool := none
  paginationSuffix : Option String := none
  maxDepth : Option Int := none
  queryOperationNamePrefix : Option String := none
  mutationOperationNamePrefix : Option String := none
  subscriptionOperationNamePrefix : Option String := none
  disableArgSuffixes : Option (List String) := none
  sort : Option Bool := none
  federation : Option Bool := none

/-- `transformSchemaAST`: the plugin passes only `sort`, `federation`
and `commentDescriptions` in the transform config, never
`disableDescriptions`, so the schema object passes through unchanged. -/
def transformSchemaAST (schema : GQLSchema) : GQLSchema :=
  schema

/-- JS array access on the possibly-undefined `tables` config field:
`tables.reduce` (in `printFragmentTypes`) and `tables.flatMap` (in
`printCrudOperations`) throw a `TypeError` at run time when `tables` is
`undefined`. -/
def requireTables (tables : Option (List String)) : Except String (List String) :=
  match tables with
  | some l => .ok l
  | none => .error "TypeError: tables is undefined"

/-- The `plugin` entry point: apply the config defaults, build the
fragment registry (unless disabled), build all CRUD operations, and join
the non-empty texts with newlines. -/
def plugin (snake camel : String → String) (schema : GQLSchema)
    (cfg : HasuraGraphQLConfig) : Except String String := do
  let maxDepth := cfg.maxDepth.getD 1
  let s := transformSchemaAST schema
  let fragmentTypes ←
    if !(cfg.disableFragments.getD false) then do
      let tables ← requireTables cfg.tables
      printFragmentTypes camel tables s maxDepth (cfg.enableSubfieldArgs.getD false)
        cfg.disableArgSuffixes
    else .ok []
  let tables ← requireTables cfg.tables
  let ops ← printCrudOperations snake camel tables s
    { queryOperationNamePrefix := some (cfg.queryOperationNamePrefix.getD "Get")
      mutationOperationNamePrefix := cfg.mutationOperationNamePrefix
      subscriptionOperationNamePrefix := some (cfg.subscriptionOperationNamePrefix.getD "Subscribe")
      disableOperationTypes := cfg.disableOperationTypes
      paginationSuffix := cfg.paginationSuffix.getD "Pagination"
      disablePagination := cfg.disablePagination.getD false
      maxDepth := maxDepth
      enableSubfieldArgs := cfg.enableSubfieldArgs.getD false
      disableFragments := cfg.disableFragments.getD false
      fragmentTypes := fragmentTypes
      disableArgSuffixes := cfg.disableArgSuffixes }
  .ok (String.intercalate "\n"
    ((fragmentTypes.map (fun f => f.2.content) ++ ops).filter (fun x => x != "")))

/-- The `validate` entry point.  `extnameOf` is node's `path.extname`
(an external collaborator).  Note the JS truthiness guard on `maxDepth`:
a configured value of `0` is falsy and is not checked. -/
def validate (extnameOf : String → String) (outputFile : String) (allPluginsCount : Nat)
    (cfg : HasuraGraphQLConfig) : Except String Unit :=
  let singlePlugin := allPluginsCount == 1
  if singlePlugin && extnameOf outputFile != ".graphql" then
    .error "Plugin \"hasura-graphql\" requires extension to be \".graphql\"!"
  else
    let badOps :=
      match cfg.disableOperationTypes with
      | some l => l.any (fun t => !(["query", "mutation", "subscription"].contains t))
      | none => false
    if badOps then
      .error "disableOperationTypes allow \"query\", \"mutation\" and \"subscription\" only"
    else
      let badDepth :=
        match cfg.maxDepth with
        | some d => d != 0 && decide (d ≤ 0)
        | none => false
      if badDepth then .error "maxDepth must be larger than 0"
      else .ok ()

/-- Error-propagating bind for the fuelled printer twin (`none` means
out of fuel and is propagated). -/
def fuelBind {α β : Type} (x : Option (Except String α))
    (f : α → Option (Except String β)) : Option (Except String β) :=
  match x with
  | none => none
  | some (.error e) => some (.error e)
  | some (.ok a) => f a

mutual

/-- Fuelled, structurally recursive twin of `printOutputField`, used
only to evaluate the printer on concrete inputs by kernel reduction;
`printOutputFieldF_sound` proves that a fuelled run that does not run
out of fuel computes exactly `printOutputField`. -/
def printOutputFieldF (s : GQLSchema) (maxDepth : Int)
    (enableSubfieldArgs disableFragments : Bool)
    (fragmentTypes : List (String × FragmentEntry)) (disabledArgs : List String)
    (fuel : Nat) (parents : List GQLField) (field : GQLField) (hideName : Bool) :
    Option (Except String PrintGraphQLOutput) :=
  match fuel with
  | 0 => none
  | fuel + 1 =>
    if (parents.any (fun p =>
          p.name == field.name && typeNameOf p.type == typeNameOf field.type)) = true
        ∨ (parents.length : Int) > maxDepth then
      some (.ok { query := "", args := [], isScalar := false })
    else if parents ≠ [] ∧ field.args ≠ [] then
      fuelBind (printOutputFieldF s maxDepth enableSubfieldArgs disableFragments fragmentTypes
          disabledArgs fuel parents { field with args := [] } true)
        (fun output =>
          some (printOperationContentCombine true parents enableSubfieldArgs disabledArgs
            field output))
    else
      match field.type with
      | .list t =>
        printOutputFieldF s maxDepth enableSubfieldArgs disableFragments fragmentTypes
          disabledArgs fuel parents { field with type := t } hideName
      | .nonNull t =>
        printOutputFieldF s maxDepth enableSubfieldArgs disableFragments fragmentTypes
          disabledArgs fuel parents { field with type := t } hideName
      | .object n =>
        if (parents.length : Int) > maxDepth - 1 then
          some (.ok { query := "", args := [], isScalar := false })
        else
          match fragmentTypes.lookup n with
          | some fragment =>
            let q := (if !hideName then field.name else "") ++ " \x7b\n  ..."
              ++ fragment.name ++ "  \n\x7d"
            some (.ok { query := q, args := fragment.args, isScalar := false })
          | none =>
            fuelBind (printOutputFieldListF s maxDepth enableSubfieldArgs disableFragments
                fragmentTypes disabledArgs fuel false parents field (s.objectFields n))
              (fun outs =>
                let innerQuery := String.intercalate "\n"
                  ((outs.map (fun o => o.query)).filter (fun q => strTrim q != ""))
                let q :=
                  if innerQuery != "" then
                    (if !hideName then field.name else "")
                      ++ " \x7b\n" ++ printIndent innerQuery 1 ++ "\n\x7d"
                  else ""
                some (.ok { query := q, args := (outs.map (fun o => o.args)).flatten,
                            isScalar := false }))
      | .union n =>
        fuelBind (printOutputFieldListF s maxDepth enableSubfieldArgs disableFragments
            fragmentTypes disabledArgs fuel false parents field
            ((s.unionMembers n).map (fun m =>
              { name := m, type := TypeRef.object m, args := [] })))
          (fun outs =>
            let q := "\x7b\n" ++ String.intercalate "\n"
              ("  __typename" :: outs.map (fun o => "  ... on " ++ o.query)) ++ "\n\x7d"
            some (.ok { query := q, args := (outs.map (fun o => o.args)).flatten,
                        isScalar := false }))
      | .iface n =>
        fuelBind (printOutputFieldListF s maxDepth enableSubfieldArgs disableFragments
            fragmentTypes disabledArgs fuel true parents field (s.ifaceFields n))
          (fun outs =>
            let q := "\x7b\n  __typename\n" ++ String.intercalate "\n"
              (outs.map (fun o => printIndent o.query 1)) ++ "\n\x7d"
            some (.ok { query := q, args := (outs.map (fun o => o.args)).flatten,
                        isScalar := false }))
      | .scalar _ =>
        some (.ok { query := if !hideName then field.name else "", args := [], isScalar := true })

/-- Fuelled twin of `printOutputFieldList`. -/
def printOutputFieldListF (s : GQLSchema) (maxDepth : Int)
    (enableSubfieldArgs disableFragments : Bool)
    (fragmentTypes : List (String × FragmentEntry)) (disabledArgs : List String)
    (fuel : Nat) (extendWithChild : Bool) (parents : List GQLField) (anchor : GQLField)
    (fields : List GQLField) : Option (Except String (List PrintGraphQLOutput)) :=
  match fuel with
  | 0 => none
  | fuel + 1 =>
    match fields with
    | [] => some (.ok [])
    | f :: rest =>
      fuelBind (printOutputFieldF s maxDepth enableSubfieldArgs disableFragments fragmentTypes
          disabledArgs fuel (parents ++ [if extendWithChild then f else anchor]) f false)
        (fun out =>
          fuelBind (printOutputFieldListF s maxDepth enableSubfieldArgs disableFragments
              fragmentTypes disabledArgs fuel extendWithChild parents anchor rest)
            (fun outs => some (.ok (out :: outs))))

end

/-- Decidable equality on results, for concrete evaluation. -/
instance {e a : Type} [DecidableEq e] [DecidableEq a] : DecidableEq (Except e a) :=
  fun x y =>
    match x, y with
    | .ok u, .ok v =>
      if h : u = v then isTrue (by rw [h]) else isFalse (by simp [h])
    | .error u, .error v =>
      if h : u = v then isTrue (by rw [h]) else isFalse (by simp [h])
    | .ok _, .error _ => isFalse (by simp)
    | .error _, .ok _ => isFalse (by simp)

/-- +1 for an opening brace, -1 for a closing brace, 0 otherwise. -/
def braceVal (c : Char) : Int :=
  if c = '\x7b' then 1 else if c = '\x7d' then -1 else 0

/-- Brace balance of a character list (opening minus closing braces). -/
def charDelta (cs : List Char) : Int :=
  (cs.map braceVal).sum

/-- Maximum brace-nesting depth reached while scanning left to right:
the maximum over all prefixes of the brace balance (at least 0). -/
def charPeak : List Char → Int
  | [] => 0
  | c :: rest => max 0 (braceVal c + charPeak rest)

/-- Brace balance of a string. -/
def strDelta (s : String) : Int :=
  charDelta s.data

/-- Maximum brace-nesting depth of a string: the depth of its deepest
braced selection set. -/
def strPeak (s : String) : Int :=
  charPeak s.data

/-- Character-level join with a separator list (the character-level view
of `String.intercalate`). -/
def joinChS (sep : List Char) : List (List Char) → List Char
  | [] => []
  | [l] => l
  | l :: ls => l ++ sep ++ joinChS sep ls

/-- Whether `pat` occurs in `cs` starting at position `i`. -/
def occursAt (pat cs : List Char) (i : Nat) : Bool :=
  pat.isPrefixOf (cs.drop i)

/-- The number of positions at which `pat` occurs in `cs`. -/
def countOccur (pat cs : List Char) : Nat :=
  ((List.range (cs.length + 1)).filter (fun i => occursAt pat cs i)).length

/-- No occurrence of character `c` in `s`. -/
def charFree (c : Char) (s : String) : Bool :=
  !(s.data.contains c)

/-- A name that contains no brace characters (true of every well-formed
GraphQL name). -/
def braceFreeStr (s : String) : Bool :=
  charFree '\x7b' s && charFree '\x7d' s

/-- All names carried by a field (its own and its arguments') are
brace-free. -/
def GQLField.braceFreeNames (f : GQLField) : Bool :=
  braceFreeStr f.name && f.args.all (fun a => braceFreeStr a.name)

/-- All names reachable in the schema's type definitions are
brace-free. -/
def GQLSchema.braceFreeNames (s : GQLSchema) : Bool :=
  s.objects.all (fun p => p.2.all (fun f => f.braceFreeNames))
    && s.unions.all (fun p => p.2.all (fun m => braceFreeStr m))
    && s.ifaces.all (fun p => p.2.all (fun f => f.braceFreeNames))

/-- A type built without union/interface constructors. -/
def TypeRef.plain : TypeRef → Bool
  | .scalar _ => true
  | .object _ => true
  | .union _ => false
  | .iface _ => false
  | .list t => t.plain
  | .nonNull t => t.plain

/-- Every object type's fields have plain (union/interface-free)
types. -/
def GQLSchema.plainObjects (s : GQLSchema) : Bool :=
  s.objects.all (fun p => p.2.all (fun f => f.type.plain))

/-- The schema contains a self-referencing object type: a type `A` with
a field whose named type is `A`. -/
def GQLSchema.hasSelfRef (s : GQLSchema) : Bool :=
  s.objects.any (fun p => p.2.any (fun f => f.type.namedName == p.1))

/-- No underscore in the string (the amended injectivity hypothesis for
sub-field variable names). -/
def usFree (s : String) : Bool :=
  charFree '_' s

/-- No newline in the string. -/
def nlFree (s : String) : Bool :=
  charFree '\n' s

/-- The document pushed by the pagination branch, split into the operation
header (`paginationHeader`) and the trailing `aggregate \x7b count \x7d`
block (`paginationTail`); `paginationDoc` is definitionally the string built
by `tablePaginationQueries`. -/
def paginationTail : String :=
  "(where: $where) \x7b\n    aggregate \x7b\n      count\n    \x7d\n  \x7d\n\x7d"

def paginationHeader (o : CrudOptions) (g : GQLField) (gc : PrintGraphQLOutput) : String :=
  "query " ++ (o.queryOperationNamePrefix.getD "") ++ capitalCase g.name
    ++ o.paginationSuffix ++ printOperationArgs gc.args

def paginationDoc (o : CrudOptions) (faName : String) (g : GQLField)
    (gc : PrintGraphQLOutput) : String :=
  paginationHeader o g gc ++ " \x7b\n" ++ printIndent gc.query 1 ++ "\n  "
    ++ faName ++ paginationTail

/-! ### Concrete sample inputs (used by witnesses and counterexamples) -/

/-- A schema whose only type is a self-referencing object `A` that also
carries a union-typed field. -/
def sampleUnion : GQLSchema :=
  { objects := [("A", [{ name := "self", type := .object "A", args := [] },
                       { name := "u", type := .union "U", args := [] }])]
    unions := [("U", ["A"])]
    ifaces := []
    queryFields := []
    mutationFields := []
    subscriptionFields := [] }

/-- A schema with a self-referencing object `A` and a scalar leaf. -/
def sampleSelfRef : GQLSchema :=
  { objects := [("A", [{ name := "self", type := .object "A", args := [] },
                       { name := "id", type := .scalar "Int", args := [] }])]
    unions := []
    ifaces := []
    queryFields := []
    mutationFields := []
    subscriptionFields := [] }

/-- A schema with no types and empty root field maps. -/
def sampleEmpty : GQLSchema :=
  { objects := []
    unions := []
    ifaces := []
    queryFields := []
    mutationFields := []
    subscriptionFields := [] }

/-- A Hasura-like schema for one model `user` with conventional query
and mutation root fields. -/
def sampleUser : GQLSchema :=
  { objects := [("user", [{ name := "id", type := .scalar "Int", args := [] },
                          { name := "name", type := .scalar "String", args := [] }])]
    unions := []
    ifaces := []
    queryFields :=
      [{ name := "user", type := .list (.object "user")
         args := [{ name := "where", type := .scalar "user_bool_exp" }] },
       { name := "user_aggregate", type := .object "user_aggregate"
         args := [{ name := "where", type := .scalar "user_bool_exp" }] },
       { name := "user_by_pk", type := .object "user"
         args := [{ name := "id", type := .nonNull (.scalar "Int") }] }]
    mutationFields :=
      [{ name := "insert_user", type := .object "user", args := [] },
       { name := "insert_user_one", type := .object "user", args := [] }]
    subscriptionFields := [] }

/-- A schema where the model object only has a self-referencing field,
so its whole selection elides at depth 1. -/
def sampleElide : GQLSchema :=
  { objects := [("user", [{ name := "self", type := .object "user", args := [] }])]
    unions := []
    ifaces := []
    queryFields :=
      [{ name := "user", type := .object "user"
         args := [{ name := "where", type := .scalar "user_bool_exp" }] }]
    mutationFields := []
    subscriptionFields := [] }

/-- A schema with an interface `N` whose only child is an object-typed field
that is its own chain extension, so every interface child elides at once. -/
def sampleIface : GQLSchema :=
  { objects := [("A", [{ name := "id", type := .scalar "Int", args := [] }])]
    unions := []
    ifaces := [("N", [{ name := "a", type := .object "A", args := [] }])]
    queryFields := []
    mutationFields := []
    subscriptionFields := [] }

/-- Default-ish crud options with `maxDepth` 1 and a Get prefix. -/
def sampleOpts : CrudOptions :=
  { queryOperationNamePrefix := some "Get"
    mutationOperationNamePrefix := none
    subscriptionOperationNamePrefix := some "Subscribe"
    disableOperationTypes := none
    paginationSuffix := "Pagination"
    disablePagination := false
    maxDepth := 1
    enableSubfieldArgs := false
    disableFragments := false
    fragmentTypes := []
    disableArgSuffixes := none }

/-! ### Fuelled-twin soundness -/

theorem fuelBind_eq_some {α β : Type} {x : Option (Except String α)}
    {f : α → Option (Except String β)} {r : Except String β}
    (h : fuelBind x f = some r) :
    (∃ e, x = some (.error e) ∧ r = .error e) ∨ (∃ a, x = some (.ok a) ∧ f a = some r) := by
  match x with
  | none => simp [fuelBind] at h
  | some (.error e) =>
    left
    refine ⟨e, rfl, ?_⟩
    simpa [fuelBind] using h.symm
  | some (.ok a) =>
    right
    exact ⟨a, rfl, by simpa [fuelBind] using h⟩

theorem printOutputFieldF_sound :
    ∀ (fuel : Nat) (s : GQLSchema) (maxDepth : Int) (esa df : Bool)
      (ft : List (String × FragmentEntry)) (da : List String),
      (∀ parents field hideName r,
        printOutputFieldF s maxDepth esa df ft da fuel parents field hideName = some r →
        printOutputField s maxDepth esa df ft da parents field hideName = r) ∧
      (∀ ewc parents anchor fields r (hp : (parents.length : Int) ≤ maxDepth),
        printOutputFieldListF s maxDepth esa df ft da fuel ewc parents anchor fields = some r →
        printOutputFieldList s maxDepth esa df ft da ewc parents anchor fields hp = r) := by
  intro fuel
  induction fuel with
  | zero =>
    intro s maxDepth esa df ft da
    constructor
    · intro parents field hideName r h
      simp [printOutputFieldF] at h
    · intro ewc parents anchor fields r hp h
      simp [printOutputFieldListF] at h
  | succ fuel ih =>
    intro s maxDepth esa df ft da
    have ih1 := (ih s maxDepth esa df ft da).1
    have ih2 := (ih s maxDepth esa df ft da).2
    constructor
    · intro parents field hideName r h
      rw [printOutputField]
      simp only [printOutputFieldF] at h
      split at h
      · rename_i hg
        rw [dif_pos hg]
        simpa using h
      · rename_i hg
        rw [dif_neg hg]
        split at h
        · rename_i hsub
          rw [dif_pos hsub]
          rcases fuelBind_eq_some h with ⟨e, hx, hr⟩ | ⟨a, hx, hf⟩
          · rw [ih1 _ _ _ _ hx, hr]
            rfl
          · rw [ih1 _ _ _ _ hx]
            exact Option.some.inj hf
        · rename_i hsub
          rw [dif_neg hsub]
          split at h
          · -- list wrapper
            rename_i t hty
            split <;> rename_i x heq <;> rw [hty] at heq <;> simp at heq
            subst heq
            exact ih1 _ _ _ _ h
          · -- non-null wrapper
            rename_i t hty
            split <;> rename_i x heq <;> rw [hty] at heq <;> simp at heq
            subst heq
            exact ih1 _ _ _ _ h
          · -- object
            rename_i n hty
            split <;> rename_i x heq <;> rw [hty] at heq <;> simp at heq
            subst heq
            split at h
            · rename_i hd
              rw [dif_pos hd]
              simpa using h
            · rename_i hd
              rw [dif_neg hd]
              split at h
              · rename_i fragment hlook
                simpa using h
              · rename_i hlook
                rcases fuelBind_eq_some h with ⟨e, hx, hr⟩ | ⟨a, hx, hf⟩
                · rw [ih2 _ _ _ _ _ (by omega) hx, hr]
                  rfl
                · rw [ih2 _ _ _ _ _ (by omega) hx]
                  exact Option.some.inj hf
          · -- union
            rename_i n hty
            split <;> rename_i x heq <;> rw [hty] at heq <;> simp at heq
            subst heq
            rcases fuelBind_eq_some h with ⟨e, hx, hr⟩ | ⟨a, hx, hf⟩
            · rw [ih2 _ _ _ _ _ (not_lt.mp (fun hx2 => hg (Or.inr hx2))) hx, hr]
              rfl
            · rw [ih2 _ _ _ _ _ (not_lt.mp (fun hx2 => hg (Or.inr hx2))) hx]
              exact Option.some.inj hf
          · -- interface
            rename_i n hty
            split <;> rename_i x heq <;> rw [hty] at heq <;> simp at heq
            subst heq
            rcases fuelBind_eq_some h with ⟨e, hx, hr⟩ | ⟨a, hx, hf⟩
            · rw [ih2 _ _ _ _ _ (not_lt.mp (fun hx2 => hg (Or.inr hx2))) hx, hr]
              rfl
            · rw [ih2 _ _ _ _ _ (not_lt.mp (fun hx2 => hg (Or.inr hx2))) hx]
              exact Option.some.inj hf
          · -- scalar leaf
            rename_i n hty
            split <;> rename_i x heq <;> rw [hty] at heq <;> simp at heq
            subst heq
            simpa using h
    · intro ewc parents anchor fields r hp h
      simp only [printOutputFieldListF] at h
      match fields with
      | [] =>
        simp only [printOutputFieldList]
        simpa using h
      | f :: rest =>
        simp only [printOutputFieldList]
        rcases fuelBind_eq_some h with ⟨e, hx, hr⟩ | ⟨a, hx, hf⟩
        · rw [ih1 _ _ _ _ hx, hr]
          rfl
        · rw [ih1 _ _ _ _ hx]
          rcases fuelBind_eq_some hf with ⟨e2, hx2, hr2⟩ | ⟨a2, hx2, hf2⟩
          · rw [show (printOutputFieldList s maxDepth esa df ft da ewc parents anchor rest hp)
                = .error e2 from ih2 _ _ _ _ _ hp hx2, hr2]
            rfl
          · rw [show (printOutputFieldList s maxDepth esa df ft da ewc parents anchor rest hp)
                = .ok a2 from ih2 _ _ _ _ _ hp hx2]
            exact Option.some.inj hf2

theorem printOutputField_ofFuel (fuel : Nat) {s : GQLSchema} {maxDepth : Int} {esa df : Bool}
    {ft : List (String × FragmentEntry)} {da : List String} {parents : List GQLField}
    {field : GQLField} {hideName : Bool} {r : Except String PrintGraphQLOutput}
    (h : printOutputFieldF s maxDepth esa df ft da fuel parents field hideName = some r) :
    printOutputField s maxDepth esa df ft da parents field hideName = r :=
  (printOutputFieldF_sound fuel s maxDepth esa df ft da).1 _ _ _ _ h

theorem printOperationContent_ofFuel (fuel : Nat) {s : GQLSchema} {maxDepth : Int}
    {esa df : Bool} {ft : List (String × FragmentEntry)} {da : List String} {isSubfield : Bool}
    {parents : List GQLField} {field : GQLField} {res : Except String PrintGraphQLOutput}
    (h : printOutputFieldF s maxDepth esa df ft da fuel parents { field with args := [] } true
      = some res) :
    printOperationContent s maxDepth esa df ft da isSubfield parents field
      = res.bind (printOperationContentCombine isSubfield parents esa da field) := by
  rw [printOperationContent, printOutputField_ofFuel fuel h]
  rfl

/-! ### Generic result helpers -/

theorem except_bind_ok_iff {α β : Type} {x : Except String α} {f : α → Except String β}
    {b : β} : (x >>= f) = .ok b ↔ ∃ a, x = .ok a ∧ f a = .ok b := by
  cases x <;> simp [Bind.bind, Except.bind]

theorem findField_name {fields : List GQLField} {m : String} {f : GQLField}
    (h : findField fields m = some f) : f.name = m := by
  unfold findField at h
  have h2 := List.find?_some h
  simpa using h2

/-! ### Argument classification (C5, C10) -/

theorem filterRequiredArgs_error_of_disabled_nonNull (da : List String) (isf esa : Bool) :
    ∀ {args : List GQLArgument},
      (∃ a ∈ args, a.type.isNonNullTy = true ∧ a.type.namedName ∈ da) →
      ∃ e, filterRequiredArgs da isf esa args = .error e := by
  intro args
  induction args with
  | nil =>
    rintro ⟨a, ha, _⟩
    simp at ha
  | cons x rest ih =>
    rintro ⟨a, ha, hnn, hdis⟩
    rcases List.mem_cons.mp ha with rfl | hmem
    · refine ⟨"The argument " ++ a.type.namedName ++ " is required but in the disabled args list",
        ?_⟩
      simp only [filterRequiredArgs]
      rw [if_pos hnn, if_pos (show da.contains a.type.namedName = true by simpa using hdis)]
    · obtain ⟨e, he⟩ := ih ⟨a, hmem, hnn, hdis⟩
      simp only [filterRequiredArgs]
      split_ifs with h1 h2 h3
      · exact ⟨_, rfl⟩
      · exact ⟨e, by rw [he]; rfl⟩
      · exact ⟨e, by rw [he]; rfl⟩
      · exact ⟨e, he⟩

theorem filterRequiredArgs_keeps_nonNull {da : List String} {isf esa : Bool} :
    ∀ {args req : List GQLArgument}, filterRequiredArgs da isf esa args = .ok req →
      ∀ a ∈ args, a.type.isNonNullTy = true → a ∈ req := by
  intro args
  induction args with
  | nil =>
    intro req _ a ha
    simp at ha
  | cons x rest ih =>
    intro req h a ha hnn
    rcases List.mem_cons.mp ha with rfl | hmem
    · simp only [filterRequiredArgs] at h
      rw [if_pos hnn] at h
      split_ifs at h
      rcases except_bind_ok_iff.mp h with ⟨tail, htail, hcons⟩
      obtain rfl : a :: tail = req := by simpa using hcons
      exact List.mem_cons_self _ _
    · simp only [filterRequiredArgs] at h
      split_ifs at h with h1 h2 h3
      · rcases except_bind_ok_iff.mp h with ⟨tail, htail, hcons⟩
        obtain rfl : x :: tail = req := by simpa using hcons
        exact List.mem_cons_of_mem _ (ih htail a hmem hnn)
      · rcases except_bind_ok_iff.mp h with ⟨tail, htail, hcons⟩
        obtain rfl : x :: tail = req := by simpa using hcons
        exact List.mem_cons_of_mem _ (ih htail a hmem hnn)
      · exact ih h a hmem hnn

/-- C5: a field with a non-nullable argument whose underlying named type
is in the disabled-argument-types set makes `printOperationContent`
throw a configuration error (never a silently dropped argument), and a
non-nullable argument that survives classification is always kept as
required. -/
theorem printOperationContent_throws_on_disabled_required_arg
    (s : GQLSchema) (maxDepth : Int) (esa df : Bool) (ft : List (String × FragmentEntry))
    (da : List String) (isSubfield : Bool) (parents : List GQLField) (field : GQLField)
    (h : ∃ a ∈ field.args, a.type.isNonNullTy = true ∧ a.type.namedName ∈ da) :
    (∃ e, printOperationContent s maxDepth esa df ft da isSubfield parents field = .error e) ∧
    (∀ args req, filterRequiredArgs da isSubfield esa args = .ok req →
      ∀ a ∈ args, a.type.isNonNullTy = true → a ∈ req) := by
  constructor
  · rcases hb : printOutputField s maxDepth esa df ft da parents { field with args := [] } true
      with e | out
    · exact ⟨e, by rw [printOperationContent, hb]; rfl⟩
    · obtain ⟨e, he⟩ := filterRequiredArgs_error_of_disabled_nonNull da isSubfield esa h
      refine ⟨e, ?_⟩
      rw [printOperationContent, hb]
      show printOperationContentCombine isSubfield parents esa da field out = .error e
      rw [printOperationContentCombine, he]
      rfl
  · exact fun args req h1 a ha hnn => filterRequiredArgs_keeps_nonNull h1 a ha hnn

theorem printOperationContent_throws_witness :
    (∃ a ∈ [({ name := "x", type := TypeRef.nonNull (.scalar "T") } : GQLArgument)],
      a.type.isNonNullTy = true ∧ a.type.namedName ∈ ["T"]) ∧
    (∃ e, printOperationContent sampleEmpty 1 false false [] ["T"] false []
      { name := "f", type := .scalar "Int",
        args := [{ name := "x", type := TypeRef.nonNull (.scalar "T") }] } = .error e) :=
  ⟨by decide,
   (printOperationContent_throws_on_disabled_required_arg sampleEmpty 1 false false [] ["T"]
     false []
     { name := "f", type := .scalar "Int",
       args := [{ name := "x", type := TypeRef.nonNull (.scalar "T") }] }
     (by decide)).1⟩

/-- C10: when the printed body of a field is empty and the field is not
a scalar leaf, the operation-content step returns an empty query string
and an empty argument list — an elided field contributes no variables to
the operation header — regardless of the field's own (classifiable)
arguments. -/
theorem printOperationContent_empty_body_empty_args
    (s : GQLSchema) (maxDepth : Int) (esa df : Bool) (ft : List (String × FragmentEntry))
    (da : List String) (isSubfield : Bool) (parents : List GQLField) (field : GQLField)
    (out : PrintGraphQLOutput) (req : List GQLArgument)
    (hbody : printOutputField s maxDepth esa df ft da parents { field with args := [] } true
      = .ok out)
    (hq : out.query = "") (hsc : out.isScalar = false)
    (hreq : filterRequiredArgs da isSubfield esa field.args = .ok req) :
    printOperationContent s maxDepth esa df ft da isSubfield parents field
      = .ok { query := "", args := [], isScalar := false } := by
  rw [printOperationContent, hbody]
  show printOperationContentCombine isSubfield parents esa da field out = _
  rw [printOperationContentCombine, hreq]
  show Except.ok _ = _
  simp [hq, hsc]

theorem printOperationContent_empty_body_witness :
    printOperationContent sampleElide 1 false false [] [] false []
      { name := "user", type := .object "user",
        args := [{ name := "id", type := .nonNull (.scalar "Int") }] }
      = .ok { query := "", args := [], isScalar := false } :=
  printOperationContent_empty_body_empty_args sampleElide 1 false false [] [] false []
    { name := "user", type := .object "user",
      args := [{ name := "id", type := .nonNull (.scalar "Int") }] }
    { query := "", args := [], isScalar := false }
    [{ name := "id", type := .nonNull (.scalar "Int") }]
    (printOutputField_ofFuel 20 (by decide)) rfl rfl (by decide)

/-! ### Zero-operation models abort the run (C3) -/

theorem except_map_ok_iff {α β : Type} {x : Except String α} {g : α → β} {b : β} :
    Except.map g x = .ok b ↔ ∃ a, x = .ok a ∧ b = g a := by
  cases x <;> simp [Except.map, eq_comm]

/-- C3: a configured model that yields zero operation documents makes
`tableOperations` throw instead of returning an empty list, and a
successful whole run therefore implies every configured model produced a
non-empty list of operations (no partial output is possible). -/
theorem tableOperations_nonempty_or_error
    (snake camel : String → String) (s : GQLSchema) (o : CrudOptions) :
    (∀ table, tableOperations snake camel s o table ≠ .ok []) ∧
    (∀ tables out, printCrudOperations snake camel tables s o = .ok out →
      ∀ table ∈ tables, ∃ ops, tableOperations snake camel s o table = .ok ops ∧ ops ≠ []) := by
  have h1 : ∀ table, tableOperations snake camel s o table ≠ .ok [] := by
    intro table h
    rw [tableOperations] at h
    rcases except_bind_ok_iff.mp h with ⟨qs, hq, h⟩
    rcases except_bind_ok_iff.mp h with ⟨subs, hs2, h⟩
    rcases except_bind_ok_iff.mp h with ⟨muts, hm, h⟩
    dsimp only [] at h
    split at h
    · simp at h
    · rename_i hne
      obtain h2 : qs ++ subs ++ muts = [] := by simpa using h
      rw [h2] at hne
      simp at hne
  refine ⟨h1, ?_⟩
  intro tables
  induction tables with
  | nil =>
    intro out h t ht
    simp at ht
  | cons t ts ih =>
    intro out h t2 ht2
    rw [printCrudOperations, List.mapM_cons] at h
    rcases except_map_ok_iff.mp h with ⟨l, hl, rfl⟩
    rcases except_bind_ok_iff.mp hl with ⟨y, hy, hl⟩
    rcases except_bind_ok_iff.mp hl with ⟨ys, hys, hl⟩
    obtain rfl : y :: ys = l := by simpa [pure, Except.pure] using hl
    rcases List.mem_cons.mp ht2 with rfl | hmem
    · refine ⟨y, hy, ?_⟩
      intro hy0
      rw [hy0] at hy
      exact h1 t2 hy
    · have hrec : printCrudOperations snake camel ts s o = .ok ys.flatten := by
        rw [printCrudOperations, hys]
        rfl
      exact ih ys.flatten hrec t2 hmem

theorem tableOperations_nonempty_witness :
    (tableOperations (fun t => t) (fun t => t) sampleEmpty sampleOpts "user" ≠ .ok []) ∧
    (∀ table ∈ ([] : List String), ∃ ops,
      tableOperations (fun t => t) (fun t => t) sampleEmpty sampleOpts table = .ok ops
        ∧ ops ≠ []) :=
  ⟨(tableOperations_nonempty_or_error (fun t => t) (fun t => t) sampleEmpty sampleOpts).1 "user",
   fun t ht =>
     (tableOperations_nonempty_or_error (fun t => t) (fun t => t) sampleEmpty sampleOpts).2
       [] [] (by decide) t ht⟩

/-! ### Validation of maxDepth (C9) -/

/-- C9 counterexample: with `maxDepth` configured as `0` (which is `<= 0`),
`validate` succeeds instead of failing — the JS truthiness guard
`_config.maxDepth && _config.maxDepth <= 0` skips the check because `0`
is falsy. -/
theorem validate_accepts_zero_maxDepth :
    ((0 : Int) ≤ 0) ∧
    validate (fun _ => ".graphql") "ops.graphql" 1 { maxDepth := some 0 } = .ok () := by
  constructor
  · decide
  · decide

/-- C9 amended: when the output-extension and operation-kind checks
pass, `validate` fails exactly for a configured negative `maxDepth`; a
configured `maxDepth` of `0` passes validation (it is JS-falsy and the
check is skipped). -/
theorem validate_maxDepth_check (extnameOf : String → String) (outputFile : String)
    (npl : Nat) (cfg : HasuraGraphQLConfig) (d : Int)
    (hmd : cfg.maxDepth = some d)
    (hext : (npl == 1 && extnameOf outputFile != ".graphql") = false)
    (hops : (match cfg.disableOperationTypes with
             | some l => l.any (fun t => !(["query", "mutation", "subscription"].contains t))
             | none => false) = false) :
    (d < 0 → validate extnameOf outputFile npl cfg = .error "maxDepth must be larger than 0") ∧
    (d = 0 → validate extnameOf outputFile npl cfg = .ok ()) := by
  constructor
  · intro hneg
    have hbd : (match cfg.maxDepth with
        | some d2 => d2 != 0 && decide (d2 ≤ 0)
        | none => false) = true := by
      rw [hmd]
      simp
      omega
    simp only [validate, hext, hops, hbd]
    simp
  · intro h0
    have hbd : (match cfg.maxDepth with
        | some d2 => d2 != 0 && decide (d2 ≤ 0)
        | none => false) = false := by
      rw [hmd, h0]
      simp
    simp only [validate, hext, hops, hbd]
    simp

theorem validate_maxDepth_witness :
    validate (fun _ => ".graphql") "ops.graphql" 1 { maxDepth := some (-2) }
      = .error "maxDepth must be larger than 0" :=
  (validate_maxDepth_check (fun _ => ".graphql") "ops.graphql" 1 { maxDepth := some (-2) }
    (-2) rfl (by decide) (by decide)).1 (by decide)

/-! ### Empty or missing model list (C8) -/

/-- C8 counterexample: with an empty `tables` list the plugin silently
returns an empty output string instead of failing. -/
theorem plugin_empty_tables_silent :
    plugin (fun t => t) (fun t => t) sampleUser { tables := some [] } = .ok "" := by
  decide

/-- C8 amended: a missing `tables` configuration makes the plugin fail
(with the modelled JS `TypeError` raised by `tables.reduce` /
`tables.flatMap`), but an empty `tables` list silently yields an empty
output string. -/
theorem plugin_tables_empty_or_missing (snake camel : String → String) (schema : GQLSchema)
    (cfg : HasuraGraphQLConfig) :
    (cfg.tables = none →
      plugin snake camel schema cfg = .error "TypeError: tables is undefined") ∧
    (cfg.tables = some [] → plugin snake camel schema cfg = .ok "") := by
  constructor
  · intro hn
    by_cases hdf : (cfg.disableFragments.getD false) = true
    · simp [plugin, hdf, hn, requireTables, Bind.bind, Except.bind]
    · simp only [Bool.not_eq_true] at hdf
      simp [plugin, hdf, hn, requireTables, Bind.bind, Except.bind]
  · intro hn
    by_cases hdf : (cfg.disableFragments.getD false) = true
    · simp [plugin, hdf, hn, requireTables, printFragmentTypes, printCrudOperations,
        Bind.bind, Except.bind, Except.map, pure, Except.pure, List.mapM.loop,
        String.intercalate]
    · simp only [Bool.not_eq_true] at hdf
      simp [plugin, hdf, hn, requireTables, printFragmentTypes, printCrudOperations,
        Bind.bind, Except.bind, Except.map, pure, Except.pure, List.mapM.loop,
        String.intercalate]

theorem plugin_missing_tables_witness :
    (plugin (fun t => t) (fun t => t) sampleUser { maxDepth := some 2 }
      = .error "TypeError: tables is undefined") ∧
    (plugin (fun t => t) (fun t => t) sampleEmpty { tables := some [] } = .ok "") :=
  ⟨(plugin_tables_empty_or_missing (fun t => t) (fun t => t) sampleUser
      { maxDepth := some 2 }).1 rfl,
   (plugin_tables_empty_or_missing (fun t => t) (fun t => t) sampleEmpty
      { tables := some [] }).2 rfl⟩

/-! ### Character-level split/join facts -/

theorem splitCh_ne_nil (sep : Char) : ∀ (cs : List Char), splitCh sep cs ≠ [] := by
  intro cs
  induction cs with
  | nil => simp [splitCh]
  | cons c rest ih =>
    simp only [splitCh]
    split_ifs with h
    · simp
    · rcases hs : splitCh sep rest with _ | ⟨l, ls⟩
      · simp
      · simp

theorem splitCh_sepFree {sep : Char} : ∀ {l : List Char}, sep ∉ l → splitCh sep l = [l] := by
  intro l
  induction l with
  | nil => intro _; rfl
  | cons c rest ih =>
    intro h
    have hc : ¬(c = sep) := by
      rintro rfl
      exact h (List.mem_cons_self _ _)
    have hr : sep ∉ rest := fun hm => h (List.mem_cons_of_mem _ hm)
    simp only [splitCh, if_neg hc, ih hr]

theorem splitCh_append_cons {sep : Char} : ∀ {l : List Char}, sep ∉ l → ∀ (cs : List Char),
    splitCh sep (l ++ sep :: cs) = l :: splitCh sep cs := by
  intro l
  induction l with
  | nil =>
    intro _ cs
    simp [splitCh]
  | cons c rest ih =>
    intro h cs
    have hc : ¬(c = sep) := by
      rintro rfl
      exact h (List.mem_cons_self _ _)
    have hr : sep ∉ rest := fun hm => h (List.mem_cons_of_mem _ hm)
    simp only [List.cons_append, splitCh, if_neg hc, List.append_eq, ih hr cs]

theorem joinChS_cons_flatten (sd : List Char) : ∀ (rest : List (List Char)) (a : List Char),
    joinChS sd (a :: rest) = a ++ (rest.map (fun x => sd ++ x)).flatten := by
  intro rest
  induction rest with
  | nil =>
    intro a
    simp [joinChS]
  | cons b bs ih =>
    intro a
    have h3 : joinChS sd (a :: b :: bs) = a ++ sd ++ joinChS sd (b :: bs) := by
      simp [joinChS]
    rw [h3, ih b]
    simp [List.append_assoc]

theorem joinChS_append_singleton (c : Char) : ∀ (ls : List (List Char)), ls ≠ [] →
    ∀ (y : List Char), joinChS [c] (ls ++ [y]) = joinChS [c] ls ++ c :: y := by
  intro ls h y
  cases ls with
  | nil => simp at h
  | cons a rest =>
    rw [List.cons_append, joinChS_cons_flatten, joinChS_cons_flatten]
    simp [List.append_assoc]

theorem splitCh_joinChS {sep : Char} : ∀ {ls : List (List Char)}, ls ≠ [] →
    (∀ l ∈ ls, sep ∉ l) → splitCh sep (joinChS [sep] ls) = ls := by
  intro ls
  induction ls with
  | nil =>
    intro h
    simp at h
  | cons a rest ih =>
    intro _ hf
    cases rest with
    | nil => simpa [joinChS] using splitCh_sepFree (hf a (by simp))
    | cons b bs =>
      have h1 : sep ∉ a := hf a (by simp)
      have h2 := ih (by simp) (fun l hl => hf l (List.mem_cons_of_mem _ hl))
      have h3 : joinChS [sep] (a :: b :: bs) = a ++ sep :: joinChS [sep] (b :: bs) := by
        simp [joinChS]
      rw [h3, splitCh_append_cons h1, h2]

theorem intercalate_go_data (s : String) : ∀ (as : List String) (acc : String),
    (String.intercalate.go acc s as).data
      = acc.data ++ (as.map (fun x => s.data ++ x.data)).flatten := by
  intro as
  induction as with
  | nil =>
    intro acc
    simp [String.intercalate.go]
  | cons a as2 ih =>
    intro acc
    have h1 : String.intercalate.go acc s (a :: as2)
        = String.intercalate.go (acc ++ s ++ a) s as2 := rfl
    rw [h1, ih]
    simp [List.append_assoc]

theorem intercalate_data (s : String) : ∀ (l : List String),
    (String.intercalate s l).data = joinChS s.data (l.map String.data) := by
  intro l
  cases l with
  | nil => rfl
  | cons a as =>
    have h1 : String.intercalate s (a :: as) = String.intercalate.go a s as := rfl
    rw [h1, intercalate_go_data, List.map_cons, joinChS_cons_flatten]
    congr 1
    rw [List.map_map]
    congr 1

theorem string_data_inj : ∀ {a b : String}, a.data = b.data → a = b := by
  intro a b h
  cases a
  cases b
  exact congrArg String.mk h

theorem usFree_not_mem {x : String} (h : usFree x = true) : '_' ∉ x.data := by
  simpa [usFree, charFree] using h

theorem intercalate_us_inj {l₁ l₂ : List String} (h₁ : l₁ ≠ []) (h₂ : l₂ ≠ [])
    (hf₁ : ∀ x ∈ l₁, usFree x = true) (hf₂ : ∀ x ∈ l₂, usFree x = true)
    (heq : String.intercalate "_" l₁ = String.intercalate "_" l₂) : l₁ = l₂ := by
  have hd := congrArg String.data heq
  rw [intercalate_data, intercalate_data] at hd
  have hus : "_".data = ['_'] := rfl
  rw [hus] at hd
  have hs₁ : splitCh '_' (joinChS ['_'] (l₁.map String.data)) = l₁.map String.data :=
    splitCh_joinChS (by simpa using h₁)
      (by
        intro l hl
        rcases List.mem_map.mp hl with ⟨x, hx, rfl⟩
        exact usFree_not_mem (hf₁ x hx))
  have hs₂ : splitCh '_' (joinChS ['_'] (l₂.map String.data)) = l₂.map String.data :=
    splitCh_joinChS (by simpa using h₂)
      (by
        intro l hl
        rcases List.mem_map.mp hl with ⟨x, hx, rfl⟩
        exact usFree_not_mem (hf₂ x hx))
  have hmap : l₁.map String.data = l₂.map String.data := by
    rw [← hs₁, ← hs₂, hd]
  exact List.map_injective_iff.mpr (fun a b hab => string_data_inj hab) hmap

theorem intercalate_us_append_singleton {xs : List String} (h : xs ≠ []) (y : String) :
    String.intercalate "_" xs ++ "_" ++ y = String.intercalate "_" (xs ++ [y]) := by
  refine string_data_inj ?_
  rw [String.data_append, String.data_append, intercalate_data, intercalate_data]
  have hus : "_".data = ['_'] := rfl
  rw [hus]
  simp only [List.map_append, List.map_cons, List.map_nil]
  rw [joinChS_append_singleton '_' (xs.map String.data) (by simpa using h) y.data]
  simp

/-! ### Sub-field variable naming (C4) -/

/-- C4 counterexample: two distinct (ancestor chain, field, argument)
paths produce the same variable name when names contain underscores:
chain `["a"]` with field `b_c` and chain `["a","b"]` with field `c` both
yield `a_b_c_d` for argument `d`. -/
theorem buildArgVariableName_collision :
    buildArgVariableName true [{ name := "a", type := .scalar "Int", args := [] }]
      { name := "b_c", type := .scalar "Int", args := [] }
      { name := "d", type := .scalar "Int" }
    = buildArgVariableName true
      [{ name := "a", type := .scalar "Int", args := [] },
       { name := "b", type := .scalar "Int", args := [] }]
      { name := "c", type := .scalar "Int", args := [] }
      { name := "d", type := .scalar "Int" }
    ∧ (["a"], "b_c") ≠ ((["a", "b"], "c") : List String × String) := by
  constructor
  · decide
  · decide

/-- C4 amended: the sub-field variable name is the underscore-join of
every ancestor field name, the field's own name, and the argument name;
this naming is injective provided the joined names are underscore-free,
and a sub-field variable name always differs from the same argument's
variable name at the operation root. -/
theorem buildArgVariableName_spec
    (parents : List GQLField) (field : GQLField) (v : GQLArgument) :
    buildArgVariableName true parents field v
      = String.intercalate "_" (parents.map (fun p => p.name) ++ [field.name]) ++ "_" ++ v.name
    ∧ (∀ (parents2 : List GQLField) (field2 : GQLField) (v2 : GQLArgument),
        (∀ x ∈ parents.map (fun p => p.name), usFree x = true) → usFree field.name = true →
        usFree v.name = true →
        (∀ x ∈ parents2.map (fun p => p.name), usFree x = true) → usFree field2.name = true →
        usFree v2.name = true →
        buildArgVariableName true parents field v
          = buildArgVariableName true parents2 field2 v2 →
        parents.map (fun p => p.name) = parents2.map (fun p => p.name)
          ∧ field.name = field2.name ∧ v.name = v2.name)
    ∧ (∀ (parents0 : List GQLField) (field0 : GQLField),
        buildArgVariableName true parents field v
          ≠ buildArgVariableName false parents0 field0 v) := by
  have hform : ∀ (p : List GQLField) (f : GQLField) (a : GQLArgument),
      buildArgVariableName true p f a
        = String.intercalate "_" (p.map (fun q => q.name) ++ [f.name] ++ [a.name]) := by
    intro p f a
    have h1 : buildArgVariableName true p f a
        = String.intercalate "_" (p.map (fun q => q.name) ++ [f.name]) ++ "_" ++ a.name := by
      simp [buildArgVariableName]
    rw [h1, intercalate_us_append_singleton (by simp) a.name]
  refine ⟨by simp [buildArgVariableName], ?_, ?_⟩
  · intro parents2 field2 v2 hp1 hf1 hv1 hp2 hf2 hv2 heq
    rw [hform, hform] at heq
    have hlists := intercalate_us_inj (show parents.map (fun q => q.name) ++ [field.name]
        ++ [v.name] ≠ [] by simp) (by simp)
      (by
        intro x hx
        simp only [List.mem_append, List.mem_singleton] at hx
        rcases hx with (hx | rfl) | rfl
        · exact hp1 x hx
        · exact hf1
        · exact hv1)
      (by
        intro x hx
        simp only [List.mem_append, List.mem_singleton] at hx
        rcases hx with (hx | rfl) | rfl
        · exact hp2 x hx
        · exact hf2
        · exact hv2)
      heq
    have hr := congrArg List.reverse hlists
    simp only [List.reverse_append, List.reverse_cons, List.reverse_nil, List.nil_append,
      List.cons_append, List.cons.injEq] at hr
    rcases hr with ⟨hv, hf, hpr⟩
    refine ⟨?_, hf, hv⟩
    have := congrArg List.reverse hpr
    simpa using this
  · intro parents0 field0 heq
    have h1 : buildArgVariableName true parents field v
        = String.intercalate "_" (parents.map (fun q => q.name) ++ [field.name]) ++ "_"
          ++ v.name := by
      simp [buildArgVariableName]
    have h0 : buildArgVariableName false parents0 field0 v = v.name := by
      simp [buildArgVariableName]
    rw [h1, h0] at heq
    have hd := congrArg (fun x => x.data.length) heq
    simp only [String.data_append, List.length_append,
      show ("_" : String).data = ['_'] from rfl, List.length_cons, List.length_nil] at hd
    omega

theorem buildArgVariableName_spec_witness :
    (([({ name := "author", type := TypeRef.scalar "Int", args := [] } : GQLField)].map
        (fun p => p.name))
      = [({ name := "author", type := TypeRef.scalar "Int", args := [] } : GQLField)].map
        (fun p => p.name)
      ∧ ("posts" : String) = "posts" ∧ ("where" : String) = "where") ∧
    buildArgVariableName true [{ name := "author", type := TypeRef.scalar "Int", args := [] }]
        { name := "posts", type := TypeRef.scalar "Int", args := [] }
        { name := "where", type := TypeRef.scalar "B" }
      ≠ buildArgVariableName false []
        { name := "posts", type := TypeRef.scalar "Int", args := [] }
        { name := "where", type := TypeRef.scalar "B" } :=
  ⟨(buildArgVariableName_spec
      [{ name := "author", type := TypeRef.scalar "Int", args := [] }]
      { name := "posts", type := TypeRef.scalar "Int", args := [] }
      { name := "where", type := TypeRef.scalar "B" }).2.1
      [{ name := "author", type := TypeRef.scalar "Int", args := [] }]
      { name := "posts", type := TypeRef.scalar "Int", args := [] }
      { name := "where", type := TypeRef.scalar "B" }
      (by decide) (by decide) (by decide) (by decide) (by decide) (by decide) rfl,
   (buildArgVariableName_spec
      [{ name := "author", type := TypeRef.scalar "Int", args := [] }]
      { name := "posts", type := TypeRef.scalar "Int", args := [] }
      { name := "where", type := TypeRef.scalar "B" }).2.2 []
      { name := "posts", type := TypeRef.scalar "Int", args := [] }⟩
/-- C6: a mutation field resolved in the root mutation fields under probe
name `m` is printed with a depth budget of `maxDepth + 1` exactly when `m`
is one of the bulk-mutation names (insert, update, update-many, delete, in
either spelling), and with exactly `maxDepth` otherwise; the mutation
section prints every resolved field with the `mutationPrintDepth` budget. -/
theorem mutationPrintDepth_spec (s : GQLSchema) (n : TableNames) (maxDepth : Int)
    (m : String) (f : GQLField)
    (hf : findField s.mutationFields m = some f) :
    (m ∈ mutationManyNames n → mutationPrintDepth n maxDepth f = maxDepth + 1) ∧
    (m ∉ mutationManyNames n → mutationPrintDepth n maxDepth f = maxDepth) ∧
    (∀ o da, opKindEnabled o.disableOperationTypes "mutation" = true →
      tableMutationSection s o n da =
        (((mutationProbeNames n).map (findField s.mutationFields)).reduceOption).mapM
          (fun g => printOperation s (mutationPrintDepth n o.maxDepth g) o.enableSubfieldArgs
            o.disableFragments o.fragmentTypes da "mutation" o.mutationOperationNamePrefix g)) := by
  have hname : f.name = m := findField_name hf
  refine ⟨?_, ?_, ?_⟩
  · intro hm
    simp [mutationPrintDepth, hname, hm]
  · intro hm
    simp [mutationPrintDepth, hname, hm]
  · intro o da ho
    simp [tableMutationSection, ho]

theorem mutationPrintDepth_spec_witness :
    mutationPrintDepth (deriveTableNames (fun t => t) (fun t => t) "user") 3
      { name := "insert_user", type := .object "user", args := [] } = 4 ∧
    mutationPrintDepth (deriveTableNames (fun t => t) (fun t => t) "user") 3
      { name := "insert_user_one", type := .object "user", args := [] } = 3 :=
  ⟨(mutationPrintDepth_spec sampleUser (deriveTableNames (fun t => t) (fun t => t) "user")
      3 "insert_user" { name := "insert_user", type := .object "user", args := [] }
      (by decide)).1 (by decide),
   ((mutationPrintDepth_spec sampleUser (deriveTableNames (fun t => t) (fun t => t) "user")
      3 "insert_user_one" { name := "insert_user_one", type := .object "user", args := [] }
      (by decide)).2.1 (by decide))⟩
theorem string_data_append : ∀ (a b : String), (a ++ b).data = a.data ++ b.data
  | ⟨_⟩, ⟨_⟩ => rfl

theorem printOutputFieldList_ok_mem (s : GQLSchema) (maxDepth : Int) (esa df : Bool)
    (ft : List (String × FragmentEntry)) (da : List String) (ewc : Bool)
    (parents : List GQLField) (anchor : GQLField) :
    ∀ (fields : List GQLField) (hp : (parents.length : Int) ≤ maxDepth)
      (outs : List PrintGraphQLOutput),
      printOutputFieldList s maxDepth esa df ft da ewc parents anchor fields hp = .ok outs →
      ∀ o ∈ outs, ∃ f ∈ fields,
        printOutputField s maxDepth esa df ft da
          (parents ++ [if ewc then f else anchor]) f false = .ok o := by
  intro fields
  induction fields with
  | nil =>
    intro hp outs h o ho
    rw [printOutputFieldList] at h
    simp at h
    subst h
    simp at ho
  | cons f rest ih =>
    intro hp outs h o ho
    rw [printOutputFieldList] at h
    rcases except_bind_ok_iff.mp h with ⟨a, ha, h2⟩
    rcases except_bind_ok_iff.mp h2 with ⟨as, has, h3⟩
    have h4 : a :: as = outs := by
      simpa [pure, Except.pure] using h3
    subst h4
    rcases List.mem_cons.mp ho with rfl | ho2
    · exact ⟨f, List.mem_cons_self f rest, ha⟩
    · rcases ih hp as has o ho2 with ⟨g, hg, hgo⟩
      exact ⟨g, List.mem_cons_of_mem f hg, hgo⟩

/-- C7 (amended): for an argument-free field with no matching cycle-pair in the
chain, (a) an object-typed field whose every child selection prints
whitespace-only elides entirely (its query is empty); but (b) a union-typed
field never elides: its query is always the braced selection opening with
`__typename`, hence non-empty, even when every member selection elides; and
(c) an interface-typed field likewise never elides: its query is always the
braced selection opening with `__typename`, hence non-empty, even when every
child selection elides. -/
theorem printOutputField_elision (s : GQLSchema) (maxDepth : Int) (esa df : Bool)
    (ft : List (String × FragmentEntry)) (da : List String)
    (parents : List GQLField) (field : GQLField) (hideName : Bool) (n : String)
    (hG : (parents.any (fun p =>
        p.name == field.name && typeNameOf p.type == typeNameOf field.type)) = false)
    (hargs : field.args = []) :
    (field.type = TypeRef.object n → ft.lookup n = none →
      ¬((parents.length : Int) > maxDepth - 1) →
      (∀ f ∈ s.objectFields n, ∀ rc,
        printOutputField s maxDepth esa df ft da (parents ++ [field]) f false = .ok rc →
        strTrim rc.query = "") →
      ∀ r, printOutputField s maxDepth esa df ft da parents field hideName = .ok r →
        r.query = "") ∧
    (field.type = TypeRef.union n →
      ∀ (hlen : ¬((parents.length : Int) > maxDepth)),
      ∀ r, printOutputField s maxDepth esa df ft da parents field hideName = .ok r →
        (∃ outs, printOutputFieldList s maxDepth esa df ft da false parents field
            ((s.unionMembers n).map (fun m =>
              ({ name := m, type := TypeRef.object m, args := [] } : GQLField)))
            (not_lt.mp hlen)
            = .ok outs
          ∧ r.query = "\x7b\n" ++ String.intercalate "\n"
              ("  __typename" :: outs.map (fun o => "  ... on " ++ o.query)) ++ "\n\x7d")
        ∧ r.query ≠ "") ∧
    (field.type = TypeRef.iface n →
      ∀ (hlen : ¬((parents.length : Int) > maxDepth)),
      ∀ r, printOutputField s maxDepth esa df ft da parents field hideName = .ok r →
        (∃ outs, printOutputFieldList s maxDepth esa df ft da true parents field
            (s.ifaceFields n) (not_lt.mp hlen)
            = .ok outs
          ∧ r.query = "\x7b\n  __typename\n" ++ String.intercalate "\n"
              (outs.map (fun o => printIndent o.query 1)) ++ "\n\x7d")
        ∧ r.query ≠ "") := by
  have hS : ¬(parents ≠ [] ∧ field.args ≠ []) := by simp [hargs]
  refine ⟨?_, ?_, ?_⟩
  · intro hty hfrag hd hall r hr
    have hGuard : ¬((parents.any (fun p =>
        p.name == field.name && typeNameOf p.type == typeNameOf field.type)) = true
        ∨ (parents.length : Int) > maxDepth) := by
      rw [hG]
      simp only [Bool.false_eq_true, false_or, not_lt]
      omega
    rw [printOutputField, dif_neg hGuard, dif_neg hS] at hr
    split at hr <;> rename_i x heq <;> rw [hty] at heq <;> simp at heq
    subst heq
    rw [dif_neg hd] at hr
    split at hr
    · rename_i fragment hlook
      rw [hfrag] at hlook
      simp at hlook
    · rename_i hlook
      rcases except_bind_ok_iff.mp hr with ⟨outs, houts, hok⟩
      have hfilter : (outs.map (fun o => o.query)).filter (fun q => strTrim q != "") = [] := by
        rw [List.filter_eq_nil_iff]
        intro q hq
        rcases List.mem_map.mp hq with ⟨o, ho, rfl⟩
        rcases printOutputFieldList_ok_mem s maxDepth esa df ft da false parents field
          _ _ _ houts o ho with ⟨f, hf, hfo⟩
        have hfo2 : printOutputField s maxDepth esa df ft da (parents ++ [field]) f false
            = .ok o := by simpa using hfo
        simp [hall f hf o hfo2]
      injection hok with hrec
      subst hrec
      simp [hfilter, String.intercalate]
  · intro hty hlen r hr
    have hGuard : ¬((parents.any (fun p =>
        p.name == field.name && typeNameOf p.type == typeNameOf field.type)) = true
        ∨ (parents.length : Int) > maxDepth) := by
      rw [hG]
      simp only [Bool.false_eq_true, false_or]
      exact hlen
    rw [printOutputField, dif_neg hGuard, dif_neg hS] at hr
    split at hr <;> rename_i x heq <;> rw [hty] at heq <;> simp at heq
    subst heq
    rcases except_bind_ok_iff.mp hr with ⟨outs, houts, hok⟩
    injection hok with hrec
    subst hrec
    constructor
    · exact ⟨outs, houts, rfl⟩
    · intro h0
      have hdd := congrArg String.data h0
      rw [string_data_append, string_data_append] at hdd
      simp at hdd
  · intro hty hlen r hr
    have hGuard : ¬((parents.any (fun p =>
        p.name == field.name && typeNameOf p.type == typeNameOf field.type)) = true
        ∨ (parents.length : Int) > maxDepth) := by
      rw [hG]
      simp only [Bool.false_eq_true, false_or]
      exact hlen
    rw [printOutputField, dif_neg hGuard, dif_neg hS] at hr
    split at hr <;> rename_i x heq <;> rw [hty] at heq <;> simp at heq
    subst heq
    rcases except_bind_ok_iff.mp hr with ⟨outs, houts, hok⟩
    injection hok with hrec
    subst hrec
    constructor
    · exact ⟨outs, houts, rfl⟩
    · intro h0
      have hdd := congrArg String.data h0
      rw [string_data_append, string_data_append] at hdd
      simp at hdd

/-- C7 (counterexample): in `sampleUnion` with `maxDepth = 0`, the only member
selection of the union-typed field `u` elides (second conjunct), yet the field
as a whole does not elide: it prints a braced selection containing
`__typename` and a dangling `... on ` inline fragment (first conjunct). -/
theorem union_field_never_elides :
    printOutputField sampleUnion 0 false false [] [] []
      { name := "u", type := TypeRef.union "U", args := [] } false
      = .ok { query := "\x7b\n  __typename\n  ... on \n\x7d", args := [], isScalar := false }
    ∧ printOutputField sampleUnion 0 false false [] []
        [{ name := "u", type := TypeRef.union "U", args := [] }]
        { name := "A", type := TypeRef.object "A", args := [] } false
      = .ok { query := "", args := [], isScalar := false } :=
  ⟨printOutputField_ofFuel 8 (by decide), printOutputField_ofFuel 8 (by decide)⟩

/-- C7 (witness): in `sampleElide` the model object's only child is the
self-referencing field, which elides at depth 1, so the object field itself
elides (its query is empty); in `sampleIface` every interface child elides at
depth 0, yet the interface field still prints the `__typename` selection, so
it does not elide. -/
theorem printOutputField_elision_witness :
    (printOutputField sampleElide 1 false false [] [] []
      { name := "user", type := TypeRef.object "user", args := [] } false
      = .ok { query := "", args := [], isScalar := false } ∧
    ({ query := "", args := [], isScalar := false } : PrintGraphQLOutput).query = "") ∧
    (printOutputField sampleIface 0 false false [] [] []
      { name := "w", type := TypeRef.iface "N", args := [] } false
      = .ok { query := "\x7b\n  __typename\n  \n\x7d", args := [], isScalar := false } ∧
    ({ query := "\x7b\n  __typename\n  \n\x7d", args := [], isScalar := false }
      : PrintGraphQLOutput).query ≠ "") := by
  have hres : printOutputField sampleElide 1 false false [] [] []
      { name := "user", type := TypeRef.object "user", args := [] } false
      = .ok { query := "", args := [], isScalar := false } :=
    printOutputField_ofFuel 8 (by decide)
  have hres2 : printOutputField sampleIface 0 false false [] [] []
      { name := "w", type := TypeRef.iface "N", args := [] } false
      = .ok { query := "\x7b\n  __typename\n  \n\x7d", args := [], isScalar := false } :=
    printOutputField_ofFuel 8 (by decide)
  refine ⟨⟨hres, ?_⟩, hres2,
    ((printOutputField_elision sampleIface 0 false false [] []
      [] { name := "w", type := TypeRef.iface "N", args := [] } false "N"
      (by decide) rfl).2.2 rfl (by decide) _ hres2).2⟩
  refine (printOutputField_elision sampleElide 1 false false [] []
      [] { name := "user", type := TypeRef.object "user", args := [] } false "user"
      (by decide) rfl).1 rfl rfl (by decide) ?_ _ hres
  intro f hf rc hrc
  have hf2 : f = { name := "self", type := TypeRef.object "user", args := [] } := by
    simpa [sampleElide, GQLSchema.objectFields] using hf
  subst hf2
  have hchild : printOutputField sampleElide 1 false false [] []
      [{ name := "user", type := TypeRef.object "user", args := [] }]
      { name := "self", type := TypeRef.object "user", args := [] } false
      = .ok { query := "", args := [], isScalar := false } :=
    printOutputField_ofFuel 8 (by decide)
  rw [show ([] ++ [({ name := "user", type := TypeRef.object "user", args := [] } : GQLField)]) = [({ name := "user", type := TypeRef.object "user", args := [] } : GQLField)] from rfl, hchild] at hrc
  injection hrc with h4
  rw [← h4]
  rfl

theorem splitCh_mem_not_mem {sep : Char} : ∀ (cs : List Char), ∀ l ∈ splitCh sep cs, sep ∉ l := by
  intro cs
  induction cs with
  | nil =>
    intro l hl
    simp [splitCh] at hl
    subst hl
    simp
  | cons c rest ih =>
    intro l hl
    simp only [splitCh] at hl
    split_ifs at hl with h
    · rcases List.mem_cons.mp hl with rfl | hl2
      · simp
      · exact ih l hl2
    · rcases hs : splitCh sep rest with _ | ⟨m, ms⟩
      · rw [hs] at hl
        simp at hl
        subst hl
        simp
        exact fun hcs => h hcs.symm
      · rw [hs] at hl
        rcases List.mem_cons.mp hl with rfl | hl2
        · intro hmem
          rcases List.mem_cons.mp hmem with hceq | hm2
          · exact h hceq.symm
          · exact ih m (by rw [hs]; exact List.mem_cons_self _ _) hm2
        · exact ih l (by rw [hs]; exact List.mem_cons_of_mem _ hl2)

theorem splitCh_joinChS_append {sep : Char} : ∀ (ls : List (List Char)), ls ≠ [] →
    (∀ l ∈ ls, sep ∉ l) → ∀ (rest : List Char),
    splitCh sep (joinChS [sep] ls ++ sep :: rest) = ls ++ splitCh sep rest := by
  intro ls
  induction ls with
  | nil =>
    intro h
    simp at h
  | cons a tl ih =>
    intro _ hf rest
    cases tl with
    | nil => simpa [joinChS] using splitCh_append_cons (hf a (by simp)) rest
    | cons b bs =>
      have h3 : joinChS [sep] (a :: b :: bs) = a ++ sep :: joinChS [sep] (b :: bs) := by
        simp [joinChS]
      rw [h3, List.append_assoc, List.cons_append,
        splitCh_append_cons (hf a (by simp)),
        ih (by simp) (fun l hl => hf l (List.mem_cons_of_mem _ hl)) rest]
      simp

theorem splitCh_paginationDoc (o : CrudOptions) (g : GQLField) (gc : PrintGraphQLOutput)
    (faName : String) (hH : nlFree (paginationHeader o g gc) = true)
    (hA : nlFree faName = true) :
    splitCh '\n' (paginationDoc o faName g gc).data
      = ((paginationHeader o g gc).data ++ [' ', '\x7b'])
        :: ((splitCh '\n' gc.query.data).map (fun l => ' ' :: ' ' :: l)
          ++ ([' ', ' '] ++ faName.data ++ "(where: $where) \x7b".data)
          :: "    aggregate \x7b".data :: "      count".data
          :: "    \x7d".data :: "  \x7d".data :: ["\x7d".data]) := by
  have hPI : (printIndent gc.query 1).data
      = joinChS ['\n'] ((splitCh '\n' gc.query.data).map (fun l => ' ' :: ' ' :: l)) := by
    rw [printIndent]
    simp only [if_neg (by omega : ¬(1 = 0))]
    rw [intercalate_data]
    rw [List.map_map]
    congr 1
  have t1 : paginationTail.data
      = "(where: $where) \x7b".data
        ++ '\n' :: "    aggregate \x7b\n      count\n    \x7d\n  \x7d\n\x7d".data := by decide
  have t2 : (" \x7b\n" : String).data = [' ', '\x7b', '\n'] := by decide
  have t3 : ("\n  " : String).data = ['\n', ' ', ' '] := by decide
  have hdata : (paginationDoc o faName g gc).data
      = ((paginationHeader o g gc).data ++ [' ', '\x7b'])
        ++ '\n' :: (joinChS ['\n'] ((splitCh '\n' gc.query.data).map (fun l => ' ' :: ' ' :: l))
          ++ '\n' :: (([' ', ' '] ++ faName.data ++ "(where: $where) \x7b".data)
            ++ '\n' :: "    aggregate \x7b\n      count\n    \x7d\n  \x7d\n\x7d".data)) := by
    show (paginationHeader o g gc ++ " \x7b\n" ++ printIndent gc.query 1 ++ "\n  "
      ++ faName ++ paginationTail).data = _
    simp only [string_data_append, hPI, t1, t2, t3]
    simp [List.append_assoc]
  have hL0 : '\n' ∉ (paginationHeader o g gc).data ++ [' ', '\x7b'] := by
    intro hm
    rcases List.mem_append.mp hm with hm1 | hm2
    · have := (by simpa [nlFree, charFree] using hH : '\n' ∉ (paginationHeader o g gc).data)
      exact this hm1
    · simp at hm2
  have hne : ((splitCh '\n' gc.query.data).map (fun l => ' ' :: ' ' :: l)) ≠ [] := by
    simp
    exact splitCh_ne_nil '\n' gc.query.data
  have hfree : ∀ l ∈ ((splitCh '\n' gc.query.data).map (fun l => ' ' :: ' ' :: l)), '\n' ∉ l := by
    intro l hl
    rcases List.mem_map.mp hl with ⟨l2, hl2, rfl⟩
    intro hm
    rcases List.mem_cons.mp hm with h1 | hm2
    · exact absurd h1 (by decide)
    rcases List.mem_cons.mp hm2 with h1 | hm3
    · exact absurd h1 (by decide)
    exact splitCh_mem_not_mem gc.query.data l2 hl2 hm3
  have hLfa : '\n' ∉ [' ', ' '] ++ faName.data ++ "(where: $where) \x7b".data := by
    intro hm
    rcases List.mem_append.mp hm with hm1 | hm2
    · rcases List.mem_append.mp hm1 with hm3 | hm4
      · simp at hm3
      · exact (by simpa [nlFree, charFree] using hA : '\n' ∉ faName.data) hm4
    · revert hm2
      decide
  rw [hdata, splitCh_append_cons hL0, splitCh_joinChS_append _ hne hfree,
    splitCh_append_cons hLfa,
    show splitCh '\n' "    aggregate \x7b\n      count\n    \x7d\n  \x7d\n\x7d".data
      = ["    aggregate \x7b".data, "      count".data, "    \x7d".data, "  \x7d".data,
         "\x7d".data] from by decide]

/-- C2 (amended): the pagination push of the query section. (i) When the
query operation type is disabled, the query section emits no documents at
all, regardless of field resolution and the pagination flag. (ii) Otherwise
the push yields a document exactly when the aggregate field and the plain
get field both resolved, pagination is not disabled, and the get body
printed successfully. (iii) The emitted document is the single combined
document whose lines are: the operation header, the indented get body, and
the aggregate field applied to `(where: $where)` followed by exactly one
`aggregate \x7b count \x7d` block. -/
theorem pagination_queries_spec (s : GQLSchema) (o : CrudOptions) (n : TableNames)
    (fa fg : Option GQLField) (da : List String) :
    (opKindEnabled o.disableOperationTypes "query" = false →
      tableQuerySection s o n da = .ok []) ∧
    ((∃ doc l, tablePaginationQueries s o fa fg da = .ok (doc :: l)) ↔
      ∃ a g gc, fa = some a ∧ fg = some g ∧ o.disablePagination = false ∧
        printOperationContent s o.maxDepth o.enableSubfieldArgs o.disableFragments
          o.fragmentTypes da false [] g = .ok gc) ∧
    (∀ a g gc, fa = some a → fg = some g → o.disablePagination = false →
      printOperationContent s o.maxDepth o.enableSubfieldArgs o.disableFragments
        o.fragmentTypes da false [] g = .ok gc →
      tablePaginationQueries s o fa fg da = .ok [paginationDoc o a.name g gc] ∧
      (nlFree (paginationHeader o g gc) = true → nlFree a.name = true →
        "  aggregate \x7b".data ∉ splitCh '\n' gc.query.data →
        splitCh '\n' (paginationDoc o a.name g gc).data
          = ((paginationHeader o g gc).data ++ [' ', '\x7b'])
            :: ((splitCh '\n' gc.query.data).map (fun l => ' ' :: ' ' :: l)
              ++ ([' ', ' '] ++ a.name.data ++ "(where: $where) \x7b".data)
              :: "    aggregate \x7b".data :: "      count".data
              :: "    \x7d".data :: "  \x7d".data :: ["\x7d".data]) ∧
        ((splitCh '\n' (paginationDoc o a.name g gc).data).filter
          (fun l => l == "    aggregate \x7b".data)).length = 1)) := by
  refine ⟨?_, ⟨?_, ?_⟩, ?_⟩
  · intro h
    simp [tableQuerySection, h]
  · rintro ⟨doc, l, hdl⟩
    rcases fa with _ | a
    · simp [tablePaginationQueries] at hdl
    rcases fg with _ | g
    · simp [tablePaginationQueries] at hdl
    by_cases hp : o.disablePagination
    · simp [tablePaginationQueries, hp] at hdl
    · have hp2 : o.disablePagination = false := by simpa using hp
      simp only [tablePaginationQueries, hp2, Bool.not_false, if_true] at hdl
      rcases except_bind_ok_iff.mp hdl with ⟨gc, hgc, _⟩
      exact ⟨a, g, gc, rfl, rfl, hp2, hgc⟩
  · rintro ⟨a, g, gc, rfl, rfl, hp, hgc⟩
    refine ⟨paginationDoc o a.name g gc, [], ?_⟩
    simp only [tablePaginationQueries, hp, Bool.not_false, if_true]
    rw [hgc]
    rfl
  · intro a g gc hfa hfg hp hgc
    subst hfa
    subst hfg
    constructor
    · simp only [tablePaginationQueries, hp, Bool.not_false, if_true]
      rw [hgc]
      rfl
    · intro hH hA hB
      have hsplit := splitCh_paginationDoc o g gc a.name hH hA
      refine ⟨hsplit, ?_⟩
      have hf0 : (((paginationHeader o g gc).data ++ [' ', '\x7b'])
          == "    aggregate \x7b".data) = false := by
        apply beq_eq_false_iff_ne.mpr
        intro h
        have hq : (paginationHeader o g gc).data
            = 'q' :: ("uery ".data ++ ((o.queryOperationNamePrefix.getD "").data
              ++ ((capitalCase g.name).data ++ (o.paginationSuffix.data
                ++ (printOperationArgs gc.args).data)))) := by
          show ("query " ++ (o.queryOperationNamePrefix.getD "") ++ capitalCase g.name
            ++ o.paginationSuffix ++ printOperationArgs gc.args : String).data = _
          simp [string_data_append, List.append_assoc]
        rw [hq, show "    aggregate \x7b".data = ' ' :: "   aggregate \x7b".data
          from by decide] at h
        rw [List.cons_append] at h
        injection h with h1 h2
        exact absurd h1 (by decide)
      have hffa : (([' ', ' '] ++ a.name.data ++ "(where: $where) \x7b".data)
          == "    aggregate \x7b".data) = false := by
        apply beq_eq_false_iff_ne.mpr
        intro h
        have hlen := congrArg List.length h
        have h17 : ("(where: $where) \x7b".data).length = 17 := by decide
        have h15 : ("    aggregate \x7b".data).length = 15 := by decide
        simp only [List.length_append, h17, h15, List.length_cons, List.length_nil] at hlen
        omega
      have hlines : (((splitCh '\n' gc.query.data).map (fun l => ' ' :: ' ' :: l)).filter
          (fun l => l == "    aggregate \x7b".data)) = [] := by
        rw [List.filter_eq_nil_iff]
        intro x hx
        rcases List.mem_map.mp hx with ⟨l2, hl2, rfl⟩
        intro hbeq
        have h : ' ' :: ' ' :: l2 = "    aggregate \x7b".data := eq_of_beq hbeq
        rw [show ("    aggregate \x7b".data : List Char)
          = ' ' :: ' ' :: "  aggregate \x7b".data from by decide] at h
        injection h with h1 h2
        injection h2 with h3 h4
        exact hB (h4 ▸ hl2)
      have hffa2 : ¬(a.name.data ++ "(where: $where) \x7b".data = "  aggregate \x7b".data) := by
        intro h
        have hlen := congrArg List.length h
        have h17 : ("(where: $where) \x7b".data).length = 17 := by decide
        have h13 : ("  aggregate \x7b".data).length = 13 := by decide
        simp only [List.length_append, h17, h13] at hlen
        omega
      have hc1 : ("    aggregate \x7b".data == "    aggregate \x7b".data) = true := by decide
      have hc2 : ("      count".data == "    aggregate \x7b".data) = false := by decide
      have hc3 : ("    \x7d".data == "    aggregate \x7b".data) = false := by decide
      have hc4 : ("  \x7d".data == "    aggregate \x7b".data) = false := by decide
      have hc5 : ("\x7d".data == "    aggregate \x7b".data) = false := by decide
      rw [hsplit]
      simp [List.filter_cons, List.filter_append, hf0, hffa, hffa2, hlines, hc1, hc2, hc3, hc4, hc5]

/-- C2 (counterexample): in `sampleUser` both the plain get field and the
aggregate field resolve and pagination is not disabled, yet once the query
operation type is disabled the query section emits no documents at all, so
the resolution-and-pagination-flag conditions alone do not characterise
emission. -/
theorem pagination_gating_counterexample :
    (jsOr (findField sampleUser.queryFields
        (deriveTableNames (fun t => t) (fun t => t) "user").fieldName)
      (findField sampleUser.queryFields
        (deriveTableNames (fun t => t) (fun t => t) "user").fieldNameCamelCase)).isSome = true
    ∧ (jsOr (findField sampleUser.queryFields
        (deriveTableNames (fun t => t) (fun t => t) "user").aggregateFieldName)
      (findField sampleUser.queryFields
        (deriveTableNames (fun t => t) (fun t => t) "user").aggregateFieldNameCamelCase)).isSome
      = true
    ∧ sampleOpts.disablePagination = false
    ∧ tableQuerySection sampleUser
        { sampleOpts with disableOperationTypes := some ["query"] }
        (deriveTableNames (fun t => t) (fun t => t) "user") [] = .ok [] := by
  refine ⟨by decide, by decide, by decide, ?_⟩
  simp [tableQuerySection, opKindEnabled]

/-- C2 (witness): the pagination push for `sampleUser` emits exactly the one
combined document, and that document has exactly one `aggregate \x7b` line. -/
theorem pagination_queries_spec_witness :
    tablePaginationQueries sampleUser sampleOpts
      (some { name := "user_aggregate", type := TypeRef.object "user_aggregate",
              args := [{ name := "where", type := TypeRef.scalar "user_bool_exp" }] })
      (some { name := "user", type := TypeRef.list (TypeRef.object "user"),
              args := [{ name := "where", type := TypeRef.scalar "user_bool_exp" }] }) []
      = .ok [paginationDoc sampleOpts "user_aggregate"
          { name := "user", type := TypeRef.list (TypeRef.object "user"),
            args := [{ name := "where", type := TypeRef.scalar "user_bool_exp" }] }
          { query := "user(where: $where) \x7b\n  id\n  name\n\x7d",
            args := [{ name := "where", type := TypeRef.scalar "user_bool_exp" }],
            isScalar := false }] ∧
    ((splitCh '\n' (paginationDoc sampleOpts "user_aggregate"
          { name := "user", type := TypeRef.list (TypeRef.object "user"),
            args := [{ name := "where", type := TypeRef.scalar "user_bool_exp" }] }
          { query := "user(where: $where) \x7b\n  id\n  name\n\x7d",
            args := [{ name := "where", type := TypeRef.scalar "user_bool_exp" }],
            isScalar := false }).data).filter
      (fun l => l == "    aggregate \x7b".data)).length = 1 := by
  have hb : printOutputFieldF sampleUser 1 false false [] [] 8 []
      { name := "user", type := TypeRef.list (TypeRef.object "user"), args := [] } true
      = some (.ok { query := " \x7b\n  id\n  name\n\x7d", args := [], isScalar := false }) := by
    decide
  have h2 : printOperationContent sampleUser 1 false false [] [] false []
      { name := "user", type := TypeRef.list (TypeRef.object "user"),
        args := [{ name := "where", type := TypeRef.scalar "user_bool_exp" }] }
      = (Except.ok ({ query := " \x7b\n  id\n  name\n\x7d", args := [], isScalar := false }
          : PrintGraphQLOutput)).bind
        (printOperationContentCombine false [] false []
          { name := "user", type := TypeRef.list (TypeRef.object "user"),
            args := [{ name := "where", type := TypeRef.scalar "user_bool_exp" }] }) :=
    printOperationContent_ofFuel 8 hb
  have hcontent : printOperationContent sampleUser 1 false false [] [] false []
      { name := "user", type := TypeRef.list (TypeRef.object "user"),
        args := [{ name := "where", type := TypeRef.scalar "user_bool_exp" }] }
      = .ok { query := "user(where: $where) \x7b\n  id\n  name\n\x7d",
              args := [{ name := "where", type := TypeRef.scalar "user_bool_exp" }],
              isScalar := false } := by
    rw [h2]
    rfl
  have happ := (pagination_queries_spec sampleUser sampleOpts
      (deriveTableNames (fun t => t) (fun t => t) "user")
      (some { name := "user_aggregate", type := TypeRef.object "user_aggregate",
              args := [{ name := "where", type := TypeRef.scalar "user_bool_exp" }] })
      (some { name := "user", type := TypeRef.list (TypeRef.object "user"),
              args := [{ name := "where", type := TypeRef.scalar "user_bool_exp" }] })
      []).2.2
      { name := "user_aggregate", type := TypeRef.object "user_aggregate",
        args := [{ name := "where", type := TypeRef.scalar "user_bool_exp" }] }
      { name := "user", type := TypeRef.list (TypeRef.object "user"),
        args := [{ name := "where", type := TypeRef.scalar "user_bool_exp" }] }
      { query := "user(where: $where) \x7b\n  id\n  name\n\x7d",
        args := [{ name := "where", type := TypeRef.scalar "user_bool_exp" }],
        isScalar := false }
      rfl rfl rfl hcontent
  exact ⟨happ.1, (happ.2 (by decide) (by decide) (by decide)).2⟩
theorem charPeak_nonneg : ∀ (cs : List Char), 0 ≤ charPeak cs := by
  intro cs
  cases cs with
  | nil => simp [charPeak]
  | cons c rest => simp [charPeak]

theorem charDelta_append : ∀ (a b : List Char), charDelta (a ++ b) = charDelta a + charDelta b := by
  intro a b
  simp [charDelta]

theorem charPeak_append : ∀ (a b : List Char),
    charPeak (a ++ b) = max (charPeak a) (charDelta a + charPeak b) := by
  intro a
  induction a with
  | nil =>
    intro b
    have := charPeak_nonneg b
    simp [charPeak, charDelta]
    omega
  | cons c rest ih =>
    intro b
    rw [List.cons_append]
    show max 0 (braceVal c + charPeak (rest ++ b)) = _
    rw [ih b]
    show _ = max (max 0 (braceVal c + charPeak rest)) (braceVal c + charDelta rest + charPeak b)
    omega

theorem charDelta_zero_of_neutral : ∀ {cs : List Char}, (∀ c ∈ cs, braceVal c = 0) →
    charDelta cs = 0 := by
  intro cs
  induction cs with
  | nil => intro _; rfl
  | cons c rest ih =>
    intro h
    have h1 := h c (List.mem_cons_self _ _)
    have h2 := ih (fun x hx => h x (List.mem_cons_of_mem _ hx))
    simp [charDelta] at h2 ⊢
    omega

theorem charPeak_zero_of_neutral : ∀ {cs : List Char}, (∀ c ∈ cs, braceVal c = 0) →
    charPeak cs = 0 := by
  intro cs
  induction cs with
  | nil => intro _; rfl
  | cons c rest ih =>
    intro h
    have h1 := h c (List.mem_cons_self _ _)
    have h2 := ih (fun x hx => h x (List.mem_cons_of_mem _ hx))
    simp [charPeak, h1, h2]

theorem braceFree_neutral {s : String} (h : braceFreeStr s = true) :
    ∀ c ∈ s.data, braceVal c = 0 := by
  intro c hc
  have h1 : '\x7b' ∉ s.data := by
    simp [braceFreeStr, charFree] at h
    simpa using h.1
  have h2 : '\x7d' ∉ s.data := by
    simp [braceFreeStr, charFree] at h
    simpa using h.2
  simp only [braceVal]
  split_ifs with hb1 hb2
  · exact absurd (hb1 ▸ hc) h1
  · exact absurd (hb2 ▸ hc) h2
  · rfl

theorem join_splitCh {sep : Char} : ∀ (cs : List Char), joinChS [sep] (splitCh sep cs) = cs := by
  intro cs
  induction cs with
  | nil => rfl
  | cons c rest ih =>
    simp only [splitCh]
    split_ifs with h
    · rcases hs : splitCh sep rest with _ | ⟨l, ls⟩
      · exact absurd hs (splitCh_ne_nil sep rest)
      · rw [hs] at ih
        rw [h]
        cases ls with
        | nil =>
          simp [joinChS] at ih ⊢
          exact ih
        | cons m ms =>
          have h3 : joinChS [sep] ([] :: l :: m :: ms)
              = [] ++ [sep] ++ joinChS [sep] (l :: m :: ms) := by
            simp [joinChS]
          rw [h3, ih]
          simp
    · rcases hs : splitCh sep rest with _ | ⟨l, ls⟩
      · exact absurd hs (splitCh_ne_nil sep rest)
      · rw [hs] at ih
        cases ls with
        | nil =>
          simp [joinChS] at ih ⊢
          simp [ih]
        | cons m ms =>
          have h3 : joinChS [sep] ((c :: l) :: m :: ms)
              = (c :: l) ++ [sep] ++ joinChS [sep] (m :: ms) := by
            simp [joinChS]
          have h4 : joinChS [sep] (l :: m :: ms)
              = l ++ [sep] ++ joinChS [sep] (m :: ms) := by
            simp [joinChS]
          rw [h3, ← ih, h4]
          simp

theorem mem_joinChS {c : Char} : ∀ (sd : List Char) (ls : List (List Char)),
    c ∈ joinChS sd ls → c ∈ sd ∨ ∃ l ∈ ls, c ∈ l := by
  intro sd ls
  induction ls with
  | nil =>
    intro h
    simp [joinChS] at h
  | cons a rest ih =>
    intro h
    cases rest with
    | nil =>
      right
      exact ⟨a, by simp, by simpa [joinChS] using h⟩
    | cons b bs =>
      rw [show joinChS sd (a :: b :: bs) = a ++ sd ++ joinChS sd (b :: bs) from by
        simp [joinChS]] at h
      rcases List.mem_append.mp h with h1 | h2
      · rcases List.mem_append.mp h1 with h3 | h4
        · exact Or.inr ⟨a, by simp, h3⟩
        · exact Or.inl h4
      · rcases ih h2 with h5 | ⟨l, hl, hcl⟩
        · exact Or.inl h5
        · exact Or.inr ⟨l, List.mem_cons_of_mem _ hl, hcl⟩

theorem neutral_intercalate (sep : String) (l : List String)
    (hs : ∀ c ∈ sep.data, braceVal c = 0)
    (hl : ∀ x ∈ l, ∀ c ∈ x.data, braceVal c = 0) :
    ∀ c ∈ (String.intercalate sep l).data, braceVal c = 0 := by
  intro c hc
  rw [intercalate_data] at hc
  rcases mem_joinChS sep.data (l.map String.data) hc with h1 | ⟨x, hx, hcx⟩
  · exact hs c h1
  · rcases List.mem_map.mp hx with ⟨y, hy, rfl⟩
    exact hl y hy c hcx

theorem lookup_mem {α β : Type} [BEq α] [LawfulBEq α] : ∀ {l : List (α × β)} {a : α} {b : β},
    List.lookup a l = some b → (a, b) ∈ l := by
  intro l
  induction l with
  | nil =>
    intro a b h
    simp [List.lookup] at h
  | cons p rest ih =>
    intro a b h
    rw [List.lookup] at h
    cases hk : (a == p.1) with
    | true =>
      rw [hk] at h
      simp at h
      have h3 : a = p.1 := eq_of_beq hk
      refine List.mem_cons.mpr (Or.inl ?_)
      rw [h3, ← h]
    | false =>
      rw [hk] at h
      simp at h
      exact List.mem_cons_of_mem _ (ih h)

theorem objectFields_plain {s : GQLSchema} (hs : s.plainObjects = true) (n : String) :
    ∀ f ∈ s.objectFields n, f.type.plain = true := by
  intro f hf
  unfold GQLSchema.objectFields at hf
  split at hf
  · rename_i fs hlook
    have hmem := lookup_mem hlook
    simp only [GQLSchema.plainObjects, List.all_eq_true] at hs
    have := hs (n, fs) hmem
    simp only [List.all_eq_true] at this
    exact this f hf
  · simp at hf

theorem objectFields_braceFree {s : GQLSchema} (hs : s.braceFreeNames = true) (n : String) :
    ∀ f ∈ s.objectFields n, f.braceFreeNames = true := by
  intro f hf
  unfold GQLSchema.objectFields at hf
  split at hf
  · rename_i fs hlook
    have hmem := lookup_mem hlook
    simp only [GQLSchema.braceFreeNames, Bool.and_eq_true, List.all_eq_true] at hs
    have := hs.1.1 (n, fs) hmem
    simp only [List.all_eq_true] at this
    exact this f hf
  · simp at hf

theorem filterRequiredArgs_mem (da : List String) (isf esa : Bool) :
    ∀ (args l : List GQLArgument), filterRequiredArgs da isf esa args = .ok l →
      ∀ a ∈ l, a ∈ args := by
  intro args
  induction args with
  | nil =>
    intro l h a ha
    rw [show filterRequiredArgs da isf esa [] = Except.ok [] from rfl] at h
    injection h with h2
    subst h2
    simp at ha
  | cons x rest ih =>
    intro l h a ha
    simp only [filterRequiredArgs] at h
    split_ifs at h with h1 h2 h3
    · rcases except_bind_ok_iff.mp h with ⟨tail, htail, hok⟩
      have h4 : x :: tail = l := by simpa [pure, Except.pure] using hok
      subst h4
      rcases List.mem_cons.mp ha with rfl | ha2
      · exact List.mem_cons_self _ _
      · exact List.mem_cons_of_mem _ (ih tail htail a ha2)
    · rcases except_bind_ok_iff.mp h with ⟨tail, htail, hok⟩
      have h4 : x :: tail = l := by simpa [pure, Except.pure] using hok
      subst h4
      rcases List.mem_cons.mp ha with rfl | ha2
      · exact List.mem_cons_self _ _
      · exact List.mem_cons_of_mem _ (ih tail htail a ha2)
    · exact List.mem_cons_of_mem _ (ih l h a ha)

theorem joinChS_indent_measure : ∀ (ls : List (List Char)),
    charDelta (joinChS ['\n'] (ls.map (fun l => ' ' :: ' ' :: l)))
      = charDelta (joinChS ['\n'] ls) ∧
    charPeak (joinChS ['\n'] (ls.map (fun l => ' ' :: ' ' :: l)))
      = charPeak (joinChS ['\n'] ls) := by
  intro ls
  induction ls with
  | nil => exact ⟨rfl, rfl⟩
  | cons a rest ih =>
    cases rest with
    | nil =>
      constructor
      · simp [joinChS, charDelta, braceVal]
      · have := charPeak_nonneg a
        simp [joinChS, charPeak, braceVal]
        omega
    | cons b bs =>
      have hL : joinChS ['\n'] (((a :: b :: bs).map (fun l => ' ' :: ' ' :: l)))
          = (' ' :: ' ' :: a) ++ ['\n'] ++ joinChS ['\n'] ((b :: bs).map (fun l => ' ' :: ' ' :: l)) := by
        simp [joinChS]
      have hR : joinChS ['\n'] (a :: b :: bs) = a ++ ['\n'] ++ joinChS ['\n'] (b :: bs) := by
        simp [joinChS]
      rw [hL, hR]
      rw [charDelta_append, charDelta_append, charDelta_append, charDelta_append,
        charPeak_append, charPeak_append, charPeak_append, charPeak_append]
      have hsp : charDelta [' ', ' '] = 0 ∧ charPeak [' ', ' '] = 0 := by decide
      have hnl : charDelta ['\n'] = 0 ∧ charPeak ['\n'] = 0 := by decide
      have hsa : charDelta (' ' :: ' ' :: a) = charDelta a := by
        simp [charDelta, braceVal]
      have hpa : charPeak (' ' :: ' ' :: a) = charPeak a := by
        have := charPeak_nonneg a
        simp [charPeak, braceVal]
        omega
      rw [hsa, hpa, ih.1, ih.2]
      simp [hnl.1, hnl.2]
      rw [show charDelta (' ' :: ' ' :: (a ++ ['\n'])) = charDelta (a ++ ['\n']) from by
        simp [charDelta, braceVal]]

theorem printIndent_data (s : String) : (printIndent s 1).data
    = joinChS ['\n'] ((splitCh '\n' s.data).map (fun l => ' ' :: ' ' :: l)) := by
  rw [printIndent]
  simp only [if_neg (by omega : ¬(1 = 0))]
  rw [intercalate_data]
  rw [List.map_map]
  congr 1

theorem printIndent_measure (s : String) :
    charDelta (printIndent s 1).data = charDelta s.data ∧
    charPeak (printIndent s 1).data = charPeak s.data := by
  rw [printIndent_data]
  have h2 := joinChS_indent_measure (splitCh '\n' s.data)
  rw [join_splitCh] at h2
  exact h2

theorem intercalate_nl_bounded (B : Int) (hB : 0 ≤ B) : ∀ (l : List String),
    (∀ x ∈ l, charDelta x.data = 0 ∧ charPeak x.data ≤ B) →
    charDelta (String.intercalate "\n" l).data = 0 ∧
    charPeak (String.intercalate "\n" l).data ≤ B := by
  intro l
  induction l with
  | nil =>
    intro _
    constructor
    · rfl
    · simpa using hB
  | cons a rest ih =>
    intro h
    have ha := h a (List.mem_cons_self _ _)
    rw [intercalate_data] at ih ⊢
    cases rest with
    | nil =>
      simpa [joinChS] using ha
    | cons b bs =>
      have h3 : joinChS ("\n".data) (((a :: b :: bs).map String.data))
          = a.data ++ ['\n'] ++ joinChS ['\n'] ((b :: bs).map String.data) := by
        simp [joinChS]
      rw [h3]
      have ih2 := ih (fun x hx => h x (List.mem_cons_of_mem _ hx))
      rw [charDelta_append, charDelta_append, charPeak_append, charPeak_append]
      have hnl : charDelta ['\n'] = 0 ∧ charPeak ['\n'] = 0 := by decide
      have hpa := charPeak_nonneg a.data
      have hpj := charPeak_nonneg (joinChS ['\n'] ((b :: bs).map String.data))
      rw [show ("\n".data : List Char) = ['\n'] from rfl] at ih2
      constructor
      · rw [ha.1, hnl.1, ih2.1]
        ring
      · rw [charDelta_append, ha.1, hnl.1, hnl.2]
        have h5 := ih2.2
        have h6 := ha.2
        omega

theorem neutral_append {P Q : List Char} (hP : ∀ c ∈ P, braceVal c = 0)
    (hQ : ∀ c ∈ Q, braceVal c = 0) : ∀ c ∈ P ++ Q, braceVal c = 0 := by
  intro c hc
  rcases List.mem_append.mp hc with h | h
  · exact hP c h
  · exact hQ c h

theorem buildArgVariableName_neutral (isf : Bool) (parents : List GQLField)
    (field : GQLField) (v : GQLArgument)
    (hparents : parents.all (fun p => braceFreeStr p.name) = true)
    (hfn : braceFreeStr field.name = true) (hvn : braceFreeStr v.name = true) :
    ∀ c ∈ (buildArgVariableName isf parents field v).data, braceVal c = 0 := by
  rw [buildArgVariableName]
  split_ifs with h1
  · exact braceFree_neutral hvn
  · rw [string_data_append, string_data_append]
    apply neutral_append (neutral_append ?_ ?_) (braceFree_neutral hvn)
    · apply neutral_intercalate
      · decide
      · intro x hx
        rcases List.mem_append.mp hx with h2 | h3
        · rcases List.mem_map.mp h2 with ⟨p, hp, rfl⟩
          have := (List.all_eq_true.mp hparents) p hp
          exact braceFree_neutral this
        · have : x = field.name := by simpa using h3
          subst this
          exact braceFree_neutral hfn
    · decide

theorem combine_measure (B : Int) (hB : 0 ≤ B) (isf : Bool) (parents : List GQLField)
    (esa : Bool) (da : List String) (field : GQLField) (output : PrintGraphQLOutput)
    (r : PrintGraphQLOutput)
    (hr : printOperationContentCombine isf parents esa da field output = .ok r)
    (hbf : field.braceFreeNames = true)
    (hparents : parents.all (fun p => braceFreeStr p.name) = true)
    (ho : charDelta output.query.data = 0 ∧ charPeak output.query.data ≤ B) :
    charDelta r.query.data = 0 ∧ charPeak r.query.data ≤ B := by
  rw [printOperationContentCombine] at hr
  rcases except_bind_ok_iff.mp hr with ⟨reqArgs, hreq, hok⟩
  have hbfn : braceFreeStr field.name = true := by
    simp only [GQLField.braceFreeNames, Bool.and_eq_true] at hbf
    exact hbf.1
  have hargsN : ∀ c ∈ (String.intercalate ","
      (reqArgs.map (fun v => v.name ++ ": $" ++ buildArgVariableName isf parents field v))).data,
      braceVal c = 0 := by
    apply neutral_intercalate
    · decide
    · intro x hx
      rcases List.mem_map.mp hx with ⟨v, hv, rfl⟩
      have hvmem : v ∈ field.args := filterRequiredArgs_mem da isf esa field.args reqArgs hreq v hv
      have hvbf : braceFreeStr v.name = true := by
        simp only [GQLField.braceFreeNames, Bool.and_eq_true, List.all_eq_true] at hbf
        exact hbf.2 v hvmem
      rw [string_data_append, string_data_append]
      exact neutral_append (neutral_append (braceFree_neutral hvbf) (by decide))
        (buildArgVariableName_neutral isf parents field v hparents hbfn hvbf)
  dsimp only [] at hok
  injection hok with hrec
  subst hrec
  dsimp only
  split_ifs with h1 h2
  · have hprefN : ∀ c ∈ (field.name ++ ("(" ++ (String.intercalate ","
        (reqArgs.map (fun v => v.name ++ ": $" ++ buildArgVariableName isf parents field v)))
        ++ ")")).data, braceVal c = 0 := by
      rw [string_data_append]
      apply neutral_append (braceFree_neutral hbfn)
      rw [string_data_append, string_data_append]
      exact neutral_append (neutral_append (by decide) hargsN) (by decide)
    rw [string_data_append, charDelta_append, charPeak_append,
      charDelta_zero_of_neutral hprefN, charPeak_zero_of_neutral hprefN]
    have := charPeak_nonneg output.query.data
    exact ⟨by omega, by omega⟩
  · have hprefN : ∀ c ∈ (field.name ++ "").data, braceVal c = 0 := by
      rw [string_data_append]
      exact neutral_append (braceFree_neutral hbfn) (by decide)
    rw [string_data_append, charDelta_append, charPeak_append,
      charDelta_zero_of_neutral hprefN, charPeak_zero_of_neutral hprefN]
    have := charPeak_nonneg output.query.data
    exact ⟨by omega, by omega⟩
  · exact ⟨by decide, by simpa using hB⟩

theorem object_query_measure (N PI : String) (B : Int)
    (hN : ∀ c ∈ N.data, braceVal c = 0)
    (hPId : charDelta PI.data = 0) (hPIp : charPeak PI.data ≤ B) (hB : 0 ≤ B) :
    charDelta (N ++ " \x7b\n" ++ PI ++ "\n\x7d").data = 0 ∧
    charPeak (N ++ " \x7b\n" ++ PI ++ "\n\x7d").data ≤ B + 1 := by
  rw [string_data_append, string_data_append, string_data_append]
  have hNd := charDelta_zero_of_neutral hN
  have hNp := charPeak_zero_of_neutral hN
  have l1 : charDelta (" \x7b\n" : String).data = 1 := by decide
  have l2 : charPeak (" \x7b\n" : String).data = 1 := by decide
  have l3 : charDelta ("\n\x7d" : String).data = -1 := by decide
  have l4 : charPeak ("\n\x7d" : String).data = 0 := by decide
  have hnn := charPeak_nonneg PI.data
  constructor
  · simp only [charDelta_append]
    rw [hNd, l1, l3, hPId]
    ring
  · simp only [charPeak_append, charDelta_append]
    rw [hNd, hNp, l1, l2, l4, hPId]
    omega

theorem printOutputField_depth_bound (s : GQLSchema) (maxDepth : Int) (esa df : Bool)
    (ft : List (String × FragmentEntry)) (da : List String)
    (hplain : s.plainObjects = true) (hbfs : s.braceFreeNames = true) (hft : ft = []) :
    ∀ (parents : List GQLField) (field : GQLField) (hideName : Bool),
      field.type.plain = true → field.braceFreeNames = true →
      parents.all (fun p => braceFreeStr p.name) = true →
      ∀ r, printOutputField s maxDepth esa df ft da parents field hideName = .ok r →
        charDelta r.query.data = 0 ∧
        charPeak r.query.data ≤ max (maxDepth - parents.length) 0 := by
  refine printOutputField.induct s maxDepth esa df ft da
    (fun parents field hideName =>
      field.type.plain = true → field.braceFreeNames = true →
      parents.all (fun p => braceFreeStr p.name) = true →
      ∀ r, printOutputField s maxDepth esa df ft da parents field hideName = .ok r →
        charDelta r.query.data = 0 ∧
        charPeak r.query.data ≤ max (maxDepth - parents.length) 0)
    (fun ewc parents anchor fields hp =>
      fields.all (fun f => f.type.plain && f.braceFreeNames) = true →
      parents.all (fun p => braceFreeStr p.name) = true →
      braceFreeStr anchor.name = true →
      ∀ outs, printOutputFieldList s maxDepth esa df ft da ewc parents anchor fields hp
          = .ok outs →
        ∀ o ∈ outs, charDelta o.query.data = 0 ∧
          charPeak o.query.data ≤ max (maxDepth - (parents.length + 1)) 0)
    ?_ ?_ ?_ ?_ ?_ ?_ ?_ ?_ ?_ ?_ ?_ ?_
  · -- cycle/depth guard: empty result
    intro parents field hideName hg hpl hbf hpar r hr
    rw [printOutputField, dif_pos hg] at hr
    injection hr with h2
    subst h2
    refine ⟨rfl, ?_⟩
    rw [show charPeak ("" : String).data = 0 from rfl]
    omega
  · -- sub-field with arguments: recursive body then combine
    intro parents field hideName hg hs ih hpl hbf hpar r hr
    rw [printOutputField, dif_neg hg, dif_pos hs] at hr
    rcases except_bind_ok_iff.mp hr with ⟨output, hout, hcomb⟩
    have hbf2 : ({ name := field.name, type := field.type, args := [] } : GQLField).braceFreeNames
        = true := by
      simp only [GQLField.braceFreeNames, Bool.and_eq_true] at hbf ⊢
      exact ⟨hbf.1, by simp⟩
    have hbounds := ih hpl hbf2 hpar output hout
    exact combine_measure (max (maxDepth - parents.length) 0) (le_max_right _ _)
      true parents esa da field output r hcomb hbf hpar hbounds
  · -- list wrapper
    intro parents field hideName hg hs t hty ih hpl hbf hpar r hr
    rw [printOutputField, dif_neg hg, dif_neg hs] at hr
    split at hr <;> rename_i x heq <;> rw [hty] at heq <;> simp at heq
    subst heq
    have hpl2 : ({ name := field.name, type := t, args := field.args } : GQLField).type.plain
        = true := by
      rw [hty] at hpl
      simpa [TypeRef.plain] using hpl
    exact ih hpl2 hbf hpar r hr
  · -- non-null wrapper
    intro parents field hideName hg hs t hty ih hpl hbf hpar r hr
    rw [printOutputField, dif_neg hg, dif_neg hs] at hr
    split at hr <;> rename_i x heq <;> rw [hty] at heq <;> simp at heq
    subst heq
    have hpl2 : ({ name := field.name, type := t, args := field.args } : GQLField).type.plain
        = true := by
      rw [hty] at hpl
      simpa [TypeRef.plain] using hpl
    exact ih hpl2 hbf hpar r hr
  · -- object past the depth limit: empty result
    intro parents field hideName hg hs n hty hd hpl hbf hpar r hr
    rw [printOutputField, dif_neg hg, dif_neg hs] at hr
    split at hr <;> rename_i x heq <;> rw [hty] at heq <;> simp at heq
    subst heq
    rw [dif_pos hd] at hr
    injection hr with h2
    subst h2
    refine ⟨rfl, ?_⟩
    rw [show charPeak ("" : String).data = 0 from rfl]
    omega
  · -- fragment hit: impossible with no fragments configured
    intro parents field hideName hg hs n hty hd fragment hlook hpl hbf hpar r hr
    rw [hft] at hlook
    simp at hlook
  · -- object with children
    intro parents field hideName hg hs n hty hd hlook ihList hpl hbf hpar r hr
    rw [printOutputField, dif_neg hg, dif_neg hs] at hr
    split at hr <;> rename_i x heq <;> rw [hty] at heq <;> simp at heq
    subst heq
    rw [dif_neg hd] at hr
    split at hr
    · rename_i fragment hlook2
      rw [hlook] at hlook2
      simp at hlook2
    · rename_i hlook2
      rcases except_bind_ok_iff.mp hr with ⟨outs, houts, hok⟩
      have hbfn : braceFreeStr field.name = true := by
        simp only [GQLField.braceFreeNames, Bool.and_eq_true] at hbf
        exact hbf.1
      have hfall : (s.objectFields n).all (fun f => f.type.plain && f.braceFreeNames) = true := by
        rw [List.all_eq_true]
        intro f hf
        rw [Bool.and_eq_true]
        exact ⟨objectFields_plain hplain n f hf, objectFields_braceFree hbfs n f hf⟩
      have hbound := ihList hfall hpar hbfn outs houts
      dsimp only [] at hok
      injection hok with hrec
      subst hrec
      dsimp only
      have hB1 : (0 : Int) ≤ max (maxDepth - (parents.length + 1)) 0 := le_max_right _ _
      have hinner := intercalate_nl_bounded (max (maxDepth - (parents.length + 1)) 0) hB1
        ((outs.map (fun o => o.query)).filter (fun q => strTrim q != ""))
        (by
          intro x hx
          have hx2 := List.mem_of_mem_filter hx
          rcases List.mem_map.mp hx2 with ⟨o, ho, rfl⟩
          exact hbound o ho)
      have hbfn2 : ∀ c ∈ (if !hideName then field.name else "").data, braceVal c = 0 := by
        cases hideName with
        | true =>
          intro c hc
          simp at hc
        | false => simpa using braceFree_neutral hbfn
      have hPI := printIndent_measure (String.intercalate "\n"
        ((outs.map (fun o => o.query)).filter (fun q => strTrim q != "")))
      by_cases hq : ((String.intercalate "\n"
          ((outs.map (fun o => o.query)).filter (fun q => strTrim q != ""))) != "") = true
      · rw [if_pos hq]
        have hasm := object_query_measure (if !hideName then field.name else "")
          (printIndent (String.intercalate "\n"
            ((outs.map (fun o => o.query)).filter (fun q => strTrim q != ""))) 1)
          (max (maxDepth - (parents.length + 1)) 0) hbfn2
          (by rw [hPI.1]; exact hinner.1)
          (by rw [hPI.2]; exact hinner.2) hB1
        refine ⟨hasm.1, ?_⟩
        have h6 := hasm.2
        omega
      · rw [if_neg hq]
        refine ⟨rfl, ?_⟩
        rw [show charPeak ("" : String).data = 0 from rfl]
        omega
  · -- union: excluded by plain types
    intro parents field hideName hg hs n hty ihL hpl hbf hpar r hr
    rw [hty] at hpl
    simp [TypeRef.plain] at hpl
  · -- interface: excluded by plain types
    intro parents field hideName hg hs n hty ihL hpl hbf hpar r hr
    rw [hty] at hpl
    simp [TypeRef.plain] at hpl
  · -- scalar leaf
    intro parents field hideName hg hs name hty hpl hbf hpar r hr
    rw [printOutputField, dif_neg hg, dif_neg hs] at hr
    split at hr <;> rename_i x heq <;> rw [hty] at heq <;> simp at heq
    subst heq
    injection hr with h2
    subst h2
    dsimp only
    have hbfn : braceFreeStr field.name = true := by
      simp only [GQLField.braceFreeNames, Bool.and_eq_true] at hbf
      exact hbf.1
    have hN : ∀ c ∈ (if !hideName then field.name else "").data, braceVal c = 0 := by
      cases hideName with
      | true =>
        intro c hc
        simp at hc
      | false => simpa using braceFree_neutral hbfn
    refine ⟨charDelta_zero_of_neutral hN, ?_⟩
    rw [charPeak_zero_of_neutral hN]
    omega
  · -- empty child list
    intro ewc parents anchor hp hfall hpar hanc outs houts o ho
    rw [printOutputFieldList] at houts
    injection houts with h2
    subst h2
    simp at ho
  · -- child list step
    intro ewc parents anchor hp f rest ih1 ih2 hfall hpar hanc outs houts o ho
    rw [printOutputFieldList] at houts
    rcases except_bind_ok_iff.mp houts with ⟨out1, hout1, h2⟩
    rcases except_bind_ok_iff.mp h2 with ⟨outs2, houts2, hok⟩
    have h4 : out1 :: outs2 = outs := by simpa [pure, Except.pure] using hok
    subst h4
    simp only [List.all_cons, Bool.and_eq_true] at hfall
    rcases List.mem_cons.mp ho with rfl | ho2
    · have hplf : f.type.plain = true := hfall.1.1
      have hbff : f.braceFreeNames = true := hfall.1.2
      have hpar2 : (parents ++ [if ewc then f else anchor]).all
          (fun p => braceFreeStr p.name) = true := by
        rw [List.all_append]
        rw [Bool.and_eq_true]
        refine ⟨hpar, ?_⟩
        simp only [List.all_cons, List.all_nil, Bool.and_true]
        split_ifs with h5
        · simp only [GQLField.braceFreeNames, Bool.and_eq_true] at hbff
          exact hbff.1
        · exact hanc
      have hres := ih1 hplf hbff hpar2 o hout1
      have hlen2 : (((parents ++ [if h : ewc = true then f else anchor]).length : Nat) : Int)
          = (parents.length : Int) + 1 := by
        simp
      rw [hlen2] at hres
      exact hres
    · have hrest : rest.all (fun f => f.type.plain && f.braceFreeNames) = true := hfall.2
      exact ih2 hrest hpar hanc outs2 houts2 o ho2

/-- C1 (amended): `printOutputField` is a total function of the embedding (its
well-founded definition is the termination argument), and (a) a field whose
(name, type name) pair already occurs in the ancestor chain is elided
unconditionally — the guard returns the empty result; (b) for schemas whose
object fields all have plain (union- and interface-free) types and brace-free
names, and with no fragments configured, the printed query is brace-balanced
and its brace-nesting depth never exceeds `max (maxDepth - parents.length) 0`;
for union-typed fields the bound fails (see the counterexample). -/
theorem printOutputField_cycle_and_depth :
    (∀ (s : GQLSchema) (maxDepth : Int) (esa df : Bool) (ft : List (String × FragmentEntry))
        (da : List String) (parents : List GQLField) (field : GQLField) (hideName : Bool),
      (parents.any (fun p => p.name == field.name
          && typeNameOf p.type == typeNameOf field.type)) = true →
      printOutputField s maxDepth esa df ft da parents field hideName
        = .ok { query := "", args := [], isScalar := false }) ∧
    (∀ (s : GQLSchema) (maxDepth : Int) (esa df : Bool) (da : List String)
        (parents : List GQLField) (field : GQLField) (hideName : Bool),
      s.plainObjects = true → s.braceFreeNames = true →
      field.type.plain = true → field.braceFreeNames = true →
      parents.all (fun p => braceFreeStr p.name) = true →
      ∀ r, printOutputField s maxDepth esa df [] da parents field hideName = .ok r →
        strDelta r.query = 0 ∧ strPeak r.query ≤ max (maxDepth - parents.length) 0) := by
  constructor
  · intro s maxDepth esa df ft da parents field hideName hg
    rw [printOutputField, dif_pos (Or.inl hg)]
  · intro s maxDepth esa df da parents field hideName hplain hbfs hpl hbf hpar r hr
    exact printOutputField_depth_bound s maxDepth esa df [] da hplain hbfs rfl
      parents field hideName hpl hbf hpar r hr

set_option maxRecDepth 80000 in
/-- C1 (counterexample): `sampleUnion` is self-referencing and the configured
maximum depth 1 is positive; the print of the object field `a` terminates (the
fuelled run converges), but its output nests braces two levels deep — the
union branch opens a selection level beyond the configured maximum. -/
theorem depth_bound_counterexample :
    sampleUnion.hasSelfRef = true ∧
    printOutputField sampleUnion 1 false false [] [] []
      { name := "a", type := TypeRef.object "A", args := [] } false
      = .ok { query := "a \x7b\n  \x7b\n    __typename\n    ... on \n  \x7d\n\x7d",
              args := [], isScalar := false } ∧
    strPeak "a \x7b\n  \x7b\n    __typename\n    ... on \n  \x7d\n\x7d" = 2 ∧
    ¬((2 : Int) ≤ 1) := by
  refine ⟨by decide, ?_, by decide, by decide⟩
  exact printOutputField_ofFuel 8 (by decide)

set_option maxRecDepth 80000 in
/-- C1 (witness): the cycle guard elides a repeated (name, type) pair in
`sampleSelfRef`, and on the plain brace-free schema `sampleUser` the printed
root query is balanced with nesting depth within the configured maximum. -/
theorem printOutputField_cycle_and_depth_witness :
    (printOutputField sampleSelfRef 1 false false [] []
      [{ name := "self", type := TypeRef.object "A", args := [] }]
      { name := "self", type := TypeRef.object "A", args := [] } false
      = .ok { query := "", args := [], isScalar := false }) ∧
    (strDelta "user \x7b\n  id\n  name\n\x7d" = 0 ∧
      strPeak "user \x7b\n  id\n  name\n\x7d"
        ≤ max ((1 : Int) - (([] : List GQLField).length : Int)) 0) := by
  constructor
  · exact printOutputField_cycle_and_depth.1 sampleSelfRef 1 false false [] []
      [{ name := "self", type := TypeRef.object "A", args := [] }]
      { name := "self", type := TypeRef.object "A", args := [] } false (by decide)
  · have hres : printOutputField sampleUser 1 false false [] [] []
        { name := "user", type := TypeRef.list (TypeRef.object "user"),
          args := [{ name := "where", type := TypeRef.scalar "user_bool_exp" }] } false
        = .ok { query := "user \x7b\n  id\n  name\n\x7d", args := [], isScalar := false } :=
      printOutputField_ofFuel 8 (by decide)
    exact printOutputField_cycle_and_depth.2 sampleUser 1 false false [] []
      { name := "user", type := TypeRef.list (TypeRef.object "user"),
        args := [{ name := "where", type := TypeRef.scalar "user_bool_exp" }] } false
      (by decide) (by decide) (by decide) (by decide) (by decide)
      { query := "user \x7b\n  id\n  name\n\x7d", args := [], isScalar := false } hres
